import Mathlib

/-!
Shallow embedding of the SynchroTraceGen event-aggregation core
(STEvent.cpp, EventHandlers.cpp, ThreadContext.hpp, CapnLogger.cpp),
with correctness theorems about the embedded definitions.

Machine 64-bit address arithmetic is modelled on `Nat` with explicit
reduction modulo `W = 2 ^ 64` at the spots where the C++ code performs
unsigned arithmetic that can wrap.
-/

namespace STGen

/-- Width of the machine address space: addresses are 64-bit unsigned. -/
def W : Nat := 2 ^ 64

/-- Ordered pair of byte addresses, inclusive on both ends
(`AddrRange` = `std::pair<Addr, Addr>` in STEvent.hpp). -/
abbrev AddrRange := Nat × Nat

/-- The wrapping successor `x + 1` of a 64-bit unsigned value
(`it->second + 1` in `AddrSet::insert` wraps at `2^64`). -/
def succW (a : Nat) : Nat := (a + 1) % W

/-- `std::pair` lexicographic `<`, used by `std::multiset<AddrRange>`. -/
def pairLt (p q : AddrRange) : Bool :=
  decide (p.1 < q.1) || (decide (p.1 = q.1) && decide (p.2 < q.2))

/-- `ms.lower_bound(range)`: index of the first stored pair that is not
lexicographically less than `range` (the list is kept in multiset order). -/
def lowerBoundIdx (ms : List AddrRange) (r : AddrRange) : Nat :=
  (ms.takeWhile (fun p => pairLt p r)).length

/-- `getD` access to the stored ranges, with an irrelevant default. -/
def elemAt (ms : List AddrRange) (i : Nat) : AddrRange := ms.getD i (0, 0)

/-- The iterator position computed at the top of `AddrSet::insert`:
take the lower bound, back off by one to examine a potentially-preceding
candidate, and restore if the previous pair does not touch `range`. -/
def insertPos (ms : List AddrRange) (range : AddrRange) : Nat :=
  if lowerBoundIdx ms range = 0 then 0
  else if lowerBoundIdx ms range = ms.length then ms.length - 1
  else if decide (succW (elemAt ms (lowerBoundIdx ms range - 1)).2 < range.1) then
    lowerBoundIdx ms range
  else lowerBoundIdx ms range - 1

/-- `ms.insert(r)` on the ordered multiset: place `r` before the first
element that is not less than it. -/
def msInsert (r : AddrRange) : List AddrRange → List AddrRange
  | [] => [r]
  | p :: rest => if pairLt p r then p :: msInsert r rest else r :: p :: rest

/-- Fuel-indexed body of `AddrSet::insert` (STEvent.cpp).  The fuel only
drives the self-calls that the C++ code performs after an `erase`; it is
always sufficient because every self-call shrinks the multiset by one. -/
def insertFuel : Nat → List AddrRange → AddrRange → List AddrRange
  | 0, ms, _ => ms
  | fuel + 1, ms, range =>
    if ms = [] then [range]
    else
      let idx := insertPos ms range
      let it := elemAt ms idx
      if range.1 = succW it.2 then
        insertFuel fuel (ms.eraseIdx idx) (it.1, range.2)
      else if succW range.2 = it.1 then
        insertFuel fuel (ms.eraseIdx idx) (range.1, it.2)
      else if decide (it.2 < range.1) then
        msInsert range ms
      else if decide (it.1 ≤ range.1) then
        if decide (it.2 < range.2) then
          insertFuel fuel (ms.eraseIdx idx) (it.1, range.2)
        else ms
      else
        if decide (range.2 < it.1) then
          msInsert range ms
        else if decide (range.2 ≤ it.2) then
          msInsert (range.1, it.2) (ms.eraseIdx idx)
        else
          insertFuel fuel (ms.eraseIdx idx) range

/-- `AddrSet::insert(range)` from STEvent.cpp: absorb `range` into the
set of closed intervals, fusing touching or overlapping neighbours. -/
def AddrSet.insert (ms : List AddrRange) (range : AddrRange) : List AddrRange :=
  insertFuel (ms.length + 1) ms range

/-- Membership of a point in one closed range. -/
def inR (r : AddrRange) (p : Nat) : Bool :=
  decide (r.1 ≤ p) && decide (p ≤ r.2)

/-- The point-set covered by a list of closed ranges. -/
def covered (ms : List AddrRange) (p : Nat) : Bool :=
  ms.any (fun r => inR r p)

/-- Ordered separation between stored ranges: `r` ends strictly more than
one below where `s` starts, so `r` and `s` neither overlap nor touch. -/
def SepR (r s : AddrRange) : Prop := r.2 + 1 < s.1

/-- A range is valid when its ends are ordered and its upper end has a
non-wrapping successor in the 64-bit address space. -/
def ValidR (r : AddrRange) : Prop := r.1 ≤ r.2 ∧ r.2 + 1 < W

/-- Well-formed stored state of an `AddrSet`: every range valid, ranges
sorted with pairwise separation (no overlap, no adjacency). -/
def AddrSetInv (ms : List AddrRange) : Prop :=
  (∀ r ∈ ms, ValidR r) ∧ ms.Pairwise SepR

/-- The inclusive range `(begin, begin + size - 1)` built by
`STCompEvent::updateReads` / `updateWrites`, with 64-bit wrap-around of
the unsigned subtraction when `size = 0`. -/
def memRange (begin size : Nat) : AddrRange :=
  (begin, (begin + size + (W - 1)) % W)

/-- State of the compute-event aggregator (`STCompEvent`): primitive
counters, the two unique address-range sets, and the active flag
(`isActive` is the negation of the source's `is_empty`). -/
structure STCompEvent where
  iops : Nat
  flops : Nat
  reads : Nat
  writes : Nat
  uniqueWriteAddrs : List AddrRange
  uniqueReadAddrs : List AddrRange
  isActive : Bool
deriving DecidableEq

/-- `STCompEvent::reset()`: zero counters, clear sets, deactivate. -/
def STCompEvent.reset : STCompEvent :=
  { iops := 0, flops := 0, reads := 0, writes := 0
    uniqueWriteAddrs := [], uniqueReadAddrs := [], isActive := false }

/-- `STCompEvent::incWrites()`. -/
def STCompEvent.incWrites (e : STCompEvent) : STCompEvent :=
  { e with isActive := true, writes := e.writes + 1 }

/-- `STCompEvent::incReads()`. -/
def STCompEvent.incReads (e : STCompEvent) : STCompEvent :=
  { e with isActive := true, reads := e.reads + 1 }

/-- `STCompEvent::incIOP()`. -/
def STCompEvent.incIOP (e : STCompEvent) : STCompEvent :=
  { e with isActive := true, iops := e.iops + 1 }

/-- `STCompEvent::incFLOP()`. -/
def STCompEvent.incFLOP (e : STCompEvent) : STCompEvent :=
  { e with isActive := true, flops := e.flops + 1 }

/-- `STCompEvent::updateWrites(begin, size)`: record the written range in
the unique store set.  Note: does not touch the active flag. -/
def STCompEvent.updateWrites (e : STCompEvent) (begin size : Nat) : STCompEvent :=
  { e with uniqueWriteAddrs := AddrSet.insert e.uniqueWriteAddrs (memRange begin size) }

/-- `STCompEvent::updateReads(begin, size)`: record the read range in the
unique load set.  Note: does not touch the active flag. -/
def STCompEvent.updateReads (e : STCompEvent) (begin size : Nat) : STCompEvent :=
  { e with uniqueReadAddrs := AddrSet.insert e.uniqueReadAddrs (memRange begin size) }

/-- State of the communication-event aggregator (`STCommEvent`): the
insertion-ordered list of edges `(writer tid, writer eid, address set)`
and the active flag. -/
structure STCommEvent where
  comms : List (Nat × Nat × List AddrRange)
  isActive : Bool
deriving DecidableEq

/-- `STCommEvent::reset()`. -/
def STCommEvent.reset : STCommEvent := { comms := [], isActive := false }

/-- Linear probe of `STCommEvent::addEdge`: extend the edge with matching
`(writer, writer_event)` or append a fresh edge with a singleton set. -/
def addEdgeAux (w : Nat) (e : Nat) (a : Nat) :
    List (Nat × Nat × List AddrRange) → List (Nat × Nat × List AddrRange)
  | [] => [(w, e, AddrSet.insert [] (a, a))]
  | edge :: rest =>
    if edge.1 = w ∧ edge.2.1 = e then
      (edge.1, edge.2.1, AddrSet.insert edge.2.2 (a, a)) :: rest
    else
      edge :: addEdgeAux w e a rest

/-- `STCommEvent::addEdge(writer, writer_event, addr)`. -/
def STCommEvent.addEdge (m : STCommEvent) (w : Nat) (e : Nat) (a : Nat) : STCommEvent :=
  { comms := addEdgeAux w e a m.comms, isActive := true }

/-- Modelled from the spec: per-byte shadow cell (§3 ShadowCell) with the
last writer (`none` = the source's `SO_UNDEF`), the writer's event id,
and the reader set.  `STShadowMemory` itself is not under `src/`. -/
structure ShadowCell where
  writerTID : Option Nat
  writerEID : Nat
  readers : List Nat

/-- Default cell: no recorded writer, empty reader set. -/
def ShadowCell.start : ShadowCell := { writerTID := none, writerEID := 0, readers := [] }

/-- Modelled from the spec: byte-indexed shadow memory (§4.2).  Addresses
at or above `limit` are unmapped; in strict mode every operation on them
raises `std::out_of_range`, which the `ThreadContext` load path catches. -/
structure STShadowMemory where
  limit : Nat
  cells : Nat → ShadowCell

/-- Cell lookup. -/
def STShadowMemory.cellAt (sh : STShadowMemory) (a : Nat) : ShadowCell := sh.cells a

/-- Modelled from the spec: `updateReader(addr, size, tid)` adds `tid` to
the reader set of each mapped byte in `[addr, addr + size)`. -/
def STShadowMemory.updateReader (sh : STShadowMemory) (addr size : Nat) (tid : Nat) :
    STShadowMemory :=
  { sh with
    cells := fun b =>
      if ((List.range size).any fun i => b = (addr + i) % W) ∧ b < sh.limit then
        let c := sh.cells b
        { c with readers := if tid ∈ c.readers then c.readers else tid :: c.readers }
      else sh.cells b }

/-- Modelled from the spec: `updateWriter(addr, size, tid, eid)` marks
each mapped byte of `[addr, addr + size)` as written by `(tid, eid)` and
clears that byte's reader set. -/
def STShadowMemory.updateWriter (sh : STShadowMemory) (addr size : Nat) (tid : Nat)
    (eid : Nat) : STShadowMemory :=
  { sh with
    cells := fun b =>
      if ((List.range size).any fun i => b = (addr + i) % W) ∧ b < sh.limit then
        { writerTID := some tid, writerEID := eid, readers := [] }
      else sh.cells b }

/-- Per-thread statistics tuple (`Stats`): IOPs, FLOPs, reads, writes,
instructions. -/
structure Stats where
  iops : Nat
  flops : Nat
  reads : Nat
  writes : Nat
  instrs : Nat
deriving DecidableEq

/-- One record handed to the logger strategy.  A `comp` record carries
the flushed aggregator's counters and unique range sets, a `comm` record
its edges; `sync` records and instruction markers are emitted directly. -/
inductive Record
  | comp (eid : Nat) (tid : Nat) (iops flops reads writes : Nat)
      (writeAddrs readAddrs : List AddrRange)
  | comm (eid : Nat) (tid : Nat) (edges : List (Nat × Nat × List AddrRange))
  | sync (eid : Nat) (tid : Nat) (ty : Nat) (addr : Nat)
  | marker (count : Nat)
deriving DecidableEq

/-- Per-thread aggregation state (`ThreadContext` in ThreadContext.hpp).
`events` is the running Nat counter (`StatCounter events{0}`); `trace` is
the ordered list of records flushed to this thread's logger; `fatal`
records that the fatal Nat-overflow path was taken (the process aborts,
so a fatal state absorbs all further primitives). -/
structure ThreadContext where
  stComp : STCompEvent
  stComm : STCommEvent
  tid : Nat
  primsPerStCompEv : Nat
  events : Nat
  stats : Stats
  trace : List Record
  fatal : Bool

/-- Freshly constructed `ThreadContext(tid, primsPerStCompEv, ...)`. -/
def ThreadContext.start (tid : Nat) (cap : Nat) : ThreadContext :=
  { stComp := STCompEvent.reset, stComm := STCommEvent.reset, tid := tid
    primsPerStCompEv := cap, events := 0
    stats := { iops := 0, flops := 0, reads := 0, writes := 0, instrs := 0 }
    trace := [], fatal := false }

/-- `INCR_EID_OVERFLOW(events)`: bump the 64-bit counter, going fatal on
overflow. -/
def ThreadContext.bumpEID (s : ThreadContext) : ThreadContext :=
  if s.events + 1 < W then { s with events := s.events + 1 }
  else { s with fatal := true }

/-- `ThreadContext::compFlushIfActive()`: if the compute aggregator is
active, hand it to the logger, reset it and bump the Nat. -/
def ThreadContext.compFlushIfActive (s : ThreadContext) : ThreadContext :=
  if s.stComp.isActive then
    ThreadContext.bumpEID
      { s with
        trace := s.trace ++
          [Record.comp s.events s.tid s.stComp.iops s.stComp.flops s.stComp.reads
            s.stComp.writes s.stComp.uniqueWriteAddrs s.stComp.uniqueReadAddrs]
        stComp := STCompEvent.reset }
  else s

/-- `ThreadContext::commFlushIfActive()`. -/
def ThreadContext.commFlushIfActive (s : ThreadContext) : ThreadContext :=
  if s.stComm.isActive then
    ThreadContext.bumpEID
      { s with
        trace := s.trace ++ [Record.comm s.events s.tid s.stComm.comms]
        stComm := STCommEvent.reset }
  else s

/-- `ThreadContext::checkCompFlushLimit()`: force a compute flush once
either counter reaches the compression cap `primsPerStCompEv`. -/
def ThreadContext.checkCompFlushLimit (s : ThreadContext) : ThreadContext :=
  if s.primsPerStCompEv ≤ s.stComp.writes ∨ s.primsPerStCompEv ≤ s.stComp.reads then
    s.compFlushIfActive
  else s

/-- `ThreadContext::onIop()`. -/
def ThreadContext.onIop (s : ThreadContext) : ThreadContext :=
  if s.fatal then s
  else
    let s := s.commFlushIfActive
    { s with stComp := s.stComp.incIOP
             stats := { s.stats with iops := s.stats.iops + 1 } }

/-- `ThreadContext::onFlop()`. -/
def ThreadContext.onFlop (s : ThreadContext) : ThreadContext :=
  if s.fatal then s
  else
    let s := s.commFlushIfActive
    { s with stComp := s.stComp.incFLOP
             stats := { s.stats with flops := s.stats.flops + 1 } }

/-- Body of the per-byte loop of `ThreadContext::onRead`: look up the
byte's writer and reader membership, register this thread as a reader,
and either add a communication edge or record a local read range.  An
unmapped byte (`std::out_of_range`) is treated as a local read. -/
def ThreadContext.readByte (tid : Nat)
    (x : STShadowMemory × STCompEvent × STCommEvent × Bool) (addr : Nat) :
    STShadowMemory × STCompEvent × STCommEvent × Bool :=
  let (sh, cp, cm, isCommEdge) := x
  if addr < sh.limit then
    let writer := (sh.cellAt addr).writerTID
    let isReader := (sh.cellAt addr).readers.contains tid
    let sh := if isReader = false then sh.updateReader addr 1 tid else sh
    if isReader = false ∧ writer ≠ some tid ∧ writer ≠ none then
      (sh, cp, cm.addEdge (writer.getD 0) (sh.cellAt addr).writerEID addr, true)
    else
      (sh, cp.updateReads addr 1, cm, isCommEdge)
  else
    (sh, cp.updateReads addr 1, cm, isCommEdge)

/-- `ThreadContext::onRead(start, bytes)`. -/
def ThreadContext.onRead (sh : STShadowMemory) (s : ThreadContext)
    (start bytes : Nat) : STShadowMemory × ThreadContext :=
  if s.fatal then (sh, s)
  else
    let r := (List.range bytes).foldl
      (fun x i => ThreadContext.readByte s.tid x ((start + i) % W))
      (sh, s.stComp, s.stComm, false)
    let s := { s with stComp := r.2.1, stComm := r.2.2.1 }
    let s :=
      if r.2.2.2 = false then
        let s := s.commFlushIfActive
        { s with stComp := s.stComp.incReads }
      else
        s.compFlushIfActive
    let s := s.checkCompFlushLimit
    (r.1, { s with stats := { s.stats with reads := s.stats.reads + 1 } })

/-- `ThreadContext::onWrite(start, bytes)`.  Note that, unlike the load
path, it never flushes the communication aggregator. -/
def ThreadContext.onWrite (sh : STShadowMemory) (s : ThreadContext)
    (start bytes : Nat) : STShadowMemory × ThreadContext :=
  if s.fatal then (sh, s)
  else
    let s := { s with stComp := (s.stComp.incWrites).updateWrites start bytes }
    let sh := sh.updateWriter start bytes s.tid s.events
    let s := s.checkCompFlushLimit
    (sh, { s with stats := { s.stats with writes := s.stats.writes + 1 } })

/-- `ThreadContext::onSync(syncType, syncAddr)`: flush both aggregators,
then emit the sync record with the current Nat.  The Nat counter is not
bumped by the sync record itself. -/
def ThreadContext.onSync (s : ThreadContext) (ty : Nat) (addr : Nat) : ThreadContext :=
  if s.fatal then s
  else
    let s := s.compFlushIfActive
    let s := s.commFlushIfActive
    { s with trace := s.trace ++ [Record.sync s.events s.tid ty addr] }

/-- `ThreadContext::onInstr()`: bump the instruction counter and emit a
marker every `2^12` instructions. -/
def ThreadContext.onInstr (s : ThreadContext) : ThreadContext :=
  if s.fatal then s
  else
    let s := { s with stats := { s.stats with instrs := s.stats.instrs + 1 } }
    if Nat.land (4096 - 1) s.stats.instrs = 0 then
      { s with trace := s.trace ++ [Record.marker 4096] }
    else s

/-- `~ThreadContext()`: flush any active aggregators at destruction. -/
def ThreadContext.shutdown (s : ThreadContext) : ThreadContext :=
  if s.fatal then s else (s.compFlushIfActive).commFlushIfActive

/-- Payload of a compute event as encoded by the packed-binary encoder
(`CapnLogger::flush(const STCompEvent&)` in CapnLogger.cpp). -/
structure CapnCompRecord where
  iops : Nat
  flops : Nat
  reads : Nat
  writes : Nat
  writeAddrs : List AddrRange
  readAddrs : List AddrRange
deriving DecidableEq

/-- The packed-binary encoding of a flushed compute event, following
CapnLogger.cpp line for line: the `readsRange` local is initialized from
`ev.uniqueWriteAddrs`, so the emitted read ranges are populated from the
write-address set. -/
def CapnLogger.flushComp (ev : STCompEvent) : CapnCompRecord :=
  { iops := ev.iops, flops := ev.flops, reads := ev.reads, writes := ev.writes
    writeAddrs := ev.uniqueWriteAddrs
    readAddrs := ev.uniqueWriteAddrs }

/-- Modelled from the spec: the frontend sync-primitive codes
(`SyncTypeEnum` lives in a header that is not under `src/`).  The ten
recognized kinds plus the `Swap` control value follow §3 of the spec; the
semaphore codes follow the source comment in `convertAndFlush` noting
that semaphores are not supported. -/
inductive SyncTypeEnum
  | SGLPRIM_SYNC_SWAP
  | SGLPRIM_SYNC_LOCK
  | SGLPRIM_SYNC_UNLOCK
  | SGLPRIM_SYNC_CREATE
  | SGLPRIM_SYNC_JOIN
  | SGLPRIM_SYNC_BARRIER
  | SGLPRIM_SYNC_CONDWAIT
  | SGLPRIM_SYNC_CONDSIG
  | SGLPRIM_SYNC_CONDBROAD
  | SGLPRIM_SYNC_SPINLOCK
  | SGLPRIM_SYNC_SPINUNLOCK
  | SGLPRIM_SYNC_SEM_WAIT
  | SGLPRIM_SYNC_SEM_POST
deriving DecidableEq

/-- The `switch` of `EventHandlers::convertAndFlush`: translate a
frontend sync code to SynchroTrace's canonical numbering, leaving the
initialization value `0` for every unhandled code. -/
def stSyncTypeOf : SyncTypeEnum → Nat
  | .SGLPRIM_SYNC_LOCK => 1
  | .SGLPRIM_SYNC_UNLOCK => 2
  | .SGLPRIM_SYNC_CREATE => 3
  | .SGLPRIM_SYNC_JOIN => 4
  | .SGLPRIM_SYNC_BARRIER => 5
  | .SGLPRIM_SYNC_CONDWAIT => 6
  | .SGLPRIM_SYNC_CONDSIG => 7
  | .SGLPRIM_SYNC_CONDBROAD => 8
  | .SGLPRIM_SYNC_SPINLOCK => 9
  | .SGLPRIM_SYNC_SPINUNLOCK => 10
  | _ => 0

/-- Dispatcher state (`EventHandlers` in EventHandlers.cpp) together
with the process-global tables it guards with the global mutex. -/
structure EventHandlers where
  tcxts : List (Nat × ThreadContext)
  currentTID : Nat
  cachedTCxt : Option Nat
  newThreadsInOrder : List Nat
  threadSpawns : List (Nat × Nat)
  barrierParticipants : List (Nat × List Nat)
  shadow : STShadowMemory
  primsPerStCompEv : Nat

/-- Lookup of a thread's context in the dispatcher's map. -/
def getTC (l : List (Nat × ThreadContext)) (t : Nat) : Option ThreadContext :=
  match l.find? (fun p => p.1 = t) with
  | some p => some p.2
  | none => none

/-- Replacement of a thread's context in the dispatcher's map. -/
def updTC (l : List (Nat × ThreadContext)) (t : Nat) (c : ThreadContext) :
    List (Nat × ThreadContext) :=
  l.map (fun p => if p.1 = t then (t, c) else p)

/-- Run a state update on the dispatcher's cached current context.  The
C++ dereferences `cachedTCxt` unconditionally; a primitive arriving
before any `Swap` is undefined behaviour there and a no-op here. -/
def EventHandlers.withCached (h : EventHandlers) (f : ThreadContext → ThreadContext) :
    EventHandlers :=
  match h.cachedTCxt with
  | none => h
  | some t =>
    match getTC h.tcxts t with
    | none => h
    | some c => { h with tcxts := updTC h.tcxts t (f c) }

/-- `EventHandlers::onSwapTCxt(newTID)`: on a real switch, lazily create
the incoming thread's context, flush the outgoing context's active
aggregators, and move the current-thread cursor.  No record is emitted
for the swap itself. -/
def EventHandlers.onSwapTCxt (h : EventHandlers) (newTID : Nat) : EventHandlers :=
  if h.currentTID ≠ newTID then
    let h :=
      if newTID ∈ h.newThreadsInOrder then h
      else
        { h with
          newThreadsInOrder := h.newThreadsInOrder ++ [newTID]
          tcxts := h.tcxts ++ [(newTID, ThreadContext.start newTID h.primsPerStCompEv)] }
    let h :=
      match h.cachedTCxt with
      | none => h
      | some t =>
        match getTC h.tcxts t with
        | none => h
        | some c => { h with tcxts := updTC h.tcxts t ((c.compFlushIfActive).commFlushIfActive) }
    { h with currentTID := newTID, cachedTCxt := some newTID }
  else h

/-- `EventHandlers::onCreate(data)`: record `(spawner, child address)`. -/
def EventHandlers.onCreate (h : EventHandlers) (data : Nat) : EventHandlers :=
  { h with threadSpawns := h.threadSpawns ++ [(h.currentTID, data)] }

/-- Ordered, duplicate-free insertion into a `std::set<Nat>`. -/
def tidSetInsert (t : Nat) : List Nat → List Nat
  | [] => [t]
  | x :: rest =>
    if t < x then t :: x :: rest
    else if t = x then x :: rest
    else x :: tidSetInsert t rest

/-- `EventHandlers::onBarrier(data)`: linear scan of the
insertion-ordered barrier table, appending a new entry or inserting the
current thread into the matching participant set. -/
def EventHandlers.onBarrier (h : EventHandlers) (data : Nat) : EventHandlers :=
  if (h.barrierParticipants.find? (fun p => p.1 = data)).isNone then
    { h with barrierParticipants := h.barrierParticipants ++ [(data, [h.currentTID])] }
  else
    { h with
      barrierParticipants := h.barrierParticipants.map
        (fun p => if p.1 = data then (p.1, tidSetInsert h.currentTID p.2) else p) }

/-- `EventHandlers::convertAndFlush(type, data)`: translate and, only
for a recognized code, hand the sync to the current context.  Unhandled
codes leave `stSyncType` at `0` and fall through without any effect. -/
def EventHandlers.convertAndFlush (h : EventHandlers) (ty : SyncTypeEnum) (data : Nat) :
    EventHandlers :=
  if 0 < stSyncTypeOf ty then h.withCached (fun c => c.onSync (stSyncTypeOf ty) data)
  else h

/-- `EventHandlers::onSyncEv(ev)`: intercept `Swap`, update the global
tables for `Create` and `Barrier`, then convert and flush. -/
def EventHandlers.onSyncEv (h : EventHandlers) (ty : SyncTypeEnum) (id : Nat) :
    EventHandlers :=
  if ty = .SGLPRIM_SYNC_SWAP then h.onSwapTCxt id
  else
    let h :=
      if ty = .SGLPRIM_SYNC_CREATE then h.onCreate id
      else if ty = .SGLPRIM_SYNC_BARRIER then h.onBarrier id
      else h
    h.convertAndFlush ty id

/-- One frontend primitive as routed to a single `ThreadContext` (the
sync code here is already converted to the canonical numbering). -/
inductive Prim
  | load (start size : Nat)
  | store (start size : Nat)
  | iop
  | flop
  | syncPrim (ty : Nat) (addr : Nat)
  | instr

/-- Process one primitive against the shared shadow memory and one
thread's context. -/
def stepPrim (x : STShadowMemory × ThreadContext) : Prim → STShadowMemory × ThreadContext
  | .load a n => ThreadContext.onRead x.1 x.2 a n
  | .store a n => ThreadContext.onWrite x.1 x.2 a n
  | .iop => (x.1, x.2.onIop)
  | .flop => (x.1, x.2.onFlop)
  | .syncPrim t a => (x.1, x.2.onSync t a)
  | .instr => (x.1, x.2.onInstr)

/-- Process a whole primitive stream for one thread. -/
def runPrims (sh : STShadowMemory) (s : ThreadContext) (ps : List Prim) :
    STShadowMemory × ThreadContext :=
  ps.foldl stepPrim (sh, s)

/-- The `assert(range.first <= range.second)` guarding `AddrSet::insert`. -/
def insertAssertOk (r : AddrRange) : Bool := decide (r.1 ≤ r.2)

/-- The communication-edge classification of one byte of a load, exactly
as §4.7 of the spec states it: the byte is mapped, this thread is not yet
in its reader set, and its last writer is defined and a different
thread. -/
def commByte (sh : STShadowMemory) (tid : Nat) (a : Nat) : Bool :=
  decide (a < sh.limit) && !((sh.cellAt a).readers.contains tid) &&
    decide ((sh.cellAt a).writerTID ≠ some tid) && decide ((sh.cellAt a).writerTID ≠ none)

/-- The Nat attached to a record (`none` for instruction markers, which
carry no Nat). -/
def recordEid : Record → Option Nat
  | .comp e _ _ _ _ _ _ _ => some e
  | .comm e _ _ => some e
  | .sync e _ _ _ => some e
  | .marker _ => none

/-- The EIDs attached to the emitted records of a trace, in order. -/
def traceEids (l : List Record) : List Nat := l.filterMap recordEid

/-- Whether some compute record of a trace has address `p` inside its
emitted read-range set. -/
def compReadAddrsCover (l : List Record) (p : Nat) : Bool :=
  l.any fun r =>
    match r with
    | .comp _ _ _ _ _ _ _ ra => covered ra p
    | _ => false

/-- Shared concrete fixture: an all-default shadow memory. -/
def shEmpty : STShadowMemory := { limit := 1000000, cells := fun _ => ShadowCell.start }

/-- Shared concrete fixture: a shadow cell recording writer thread 1 at
event 7. -/
def cellT1E7 : ShadowCell := { writerTID := some 1, writerEID := 7, readers := [] }

/-- Shared concrete fixture: a shadow memory in which only address 100
has a recorded writer (thread 1, event 7). -/
def shT1At100 : STShadowMemory :=
  { limit := 1000000, cells := fun a => if a = 100 then cellT1E7 else ShadowCell.start }

/-- Shared concrete fixture: a quiescent dispatcher currently on thread
1, whose context is fresh. -/
def dispatchFix : EventHandlers :=
  { tcxts := [(1, ThreadContext.start 1 100)], currentTID := 1, cachedTCxt := some 1
    newThreadsInOrder := [1], threadSpawns := [], barrierParticipants := []
    shadow := shEmpty, primsPerStCompEv := 100 }

/-- The state of `onRead`'s per-byte loop after its first `i`
iterations. -/
def readLoop (tid : Nat) (start : Nat) (sh0 : STShadowMemory) (cp0 : STCompEvent)
    (cm0 : STCommEvent) (i : Nat) : STShadowMemory × STCompEvent × STCommEvent × Bool :=
  (List.range i).foldl (fun x j => ThreadContext.readByte tid x ((start + j) % W))
    (sh0, cp0, cm0, false)

/-- The read-range set obtained by inserting the singleton ranges of the
locally-classified bytes among the first `i` bytes of a load. -/
def localReadFold (sh0 : STShadowMemory) (tid : Nat) (start : Nat)
    (base : List AddrRange) (i : Nat) : List AddrRange :=
  ((List.range i).filter (fun j => !commByte sh0 tid (start + j))).foldl
    (fun ms j => AddrSet.insert ms (start + j, start + j)) base

/-- Whether a record is the flush of one of the two aggregators (these
are the records whose flush bumps the Nat counter). -/
def isCompComm : Record → Bool
  | .comp _ _ _ _ _ _ _ _ => true
  | .comm _ _ _ => true
  | _ => false

/-- Number of aggregator-flush records in a trace. -/
def compCommCount : List Record → Nat
  | [] => 0
  | r :: t => (if isCompComm r then 1 else 0) + compCommCount t

/-- The EIDs of the aggregator-flush records of a trace, in order. -/
def compCommEids : List Record → List Nat
  | [] => []
  | .comp e _ _ _ _ _ _ _ :: t => e :: compCommEids t
  | .comm e _ _ :: t => e :: compCommEids t
  | _ :: t => compCommEids t

/-- The per-thread Nat discipline that the code actually implements,
checked against a running counter `k`: every compute and communication
record carries the current counter and bumps it; every sync record
carries the current counter without bumping it; markers carry no Nat. -/
def eidsOk : List Record → Nat → Bool
  | [], _ => true
  | .comp e _ _ _ _ _ _ _ :: t, k => decide (e = k) && eidsOk t (k + 1)
  | .comm e _ _ :: t, k => decide (e = k) && eidsOk t (k + 1)
  | .sync e _ _ _ :: t, k => decide (e = k) && eidsOk t k
  | .marker _ :: t, k => eidsOk t k

/-- The per-thread Nat invariant: in every state the process has not
aborted in, the trace satisfies the Nat discipline and the counter equals
the number of aggregator flushes so far. -/
def EidInv (s : ThreadContext) : Prop :=
  s.fatal = false → (eidsOk s.trace 0 = true ∧ s.events = compCommCount s.trace)

lemma succW_eq (a : Nat) (h : a + 1 < W) : succW a = a + 1 :=
  Nat.mod_eq_of_lt h

lemma elemAt_cons_zero (x : AddrRange) (t : List AddrRange) : elemAt (x :: t) 0 = x := rfl

lemma elemAt_cons_succ (x : AddrRange) (t : List AddrRange) (j : Nat) :
    elemAt (x :: t) (j + 1) = elemAt t j := rfl

lemma elemAt_mem (ms : List AddrRange) (i : Nat) (h : i < ms.length) : elemAt ms i ∈ ms := by
  unfold elemAt
  rw [List.getD_eq_getElem ms (0, 0) h]
  exact List.getElem_mem h

lemma pairwise_elemAt {R : AddrRange → AddrRange → Prop} (ms : List AddrRange)
    (h : ms.Pairwise R) (i j : Nat) (hij : i < j) (hj : j < ms.length) :
    R (elemAt ms i) (elemAt ms j) := by
  rw [List.pairwise_iff_get] at h
  have hi : i < ms.length := lt_trans hij hj
  have hr := h ⟨i, hi⟩ ⟨j, hj⟩ hij
  unfold elemAt
  rw [List.getD_eq_getElem ms (0, 0) hi, List.getD_eq_getElem ms (0, 0) hj]
  exact hr

lemma takeWhile_le_length (p : AddrRange → Bool) (ms : List AddrRange) :
    (ms.takeWhile p).length ≤ ms.length := by
  induction ms with
  | nil => simp
  | cons x t ih =>
    rw [List.takeWhile_cons]
    by_cases h : p x
    · simp only [if_pos h, List.length_cons]
      omega
    · simp [if_neg h]

lemma takeWhile_elemAt_true (p : AddrRange → Bool) (ms : List AddrRange) (j : Nat)
    (hj : j < (ms.takeWhile p).length) : p (elemAt ms j) = true := by
  induction ms generalizing j with
  | nil => simp at hj
  | cons x t ih =>
    rw [List.takeWhile_cons] at hj
    by_cases h : p x
    · rw [if_pos h] at hj
      cases j with
      | zero => simpa [elemAt_cons_zero] using h
      | succ j =>
        rw [elemAt_cons_succ]
        exact ih j (by simpa using hj)
    · rw [if_neg h] at hj
      simp at hj

lemma takeWhile_elemAt_false (p : AddrRange → Bool) (ms : List AddrRange)
    (h : (ms.takeWhile p).length < ms.length) :
    p (elemAt ms (ms.takeWhile p).length) = false := by
  induction ms with
  | nil => simp at h
  | cons x t ih =>
    by_cases hx : p x
    · rw [List.takeWhile_cons, if_pos hx] at h ⊢
      simp only [List.length_cons] at h ⊢
      rw [elemAt_cons_succ]
      exact ih (by omega)
    · rw [List.takeWhile_cons, if_neg hx]
      simpa [elemAt_cons_zero] using hx

lemma mem_take_iff (ms : List AddrRange) (n : Nat) (s : AddrRange) (hs : s ∈ ms.take n) :
    ∃ j, j < n ∧ j < ms.length ∧ elemAt ms j = s := by
  obtain ⟨⟨j, hj⟩, hget⟩ := List.get_of_mem hs
  have hjlen : j < ms.length := by
    have := List.length_take n ms
    omega
  have hjn : j < n := by
    have := List.length_take n ms
    omega
  refine ⟨j, hjn, hjlen, ?_⟩
  unfold elemAt
  rw [List.getD_eq_get ms (0, 0) hjlen, ← hget]
  exact List.get_take ms hjlen hjn

lemma pairLt_iff (p q : AddrRange) :
    pairLt p q = true ↔ (p.1 < q.1 ∨ (p.1 = q.1 ∧ p.2 < q.2)) := by
  unfold pairLt
  simp

lemma pairLt_eq_false_iff (p q : AddrRange) :
    pairLt p q = false ↔ ¬(p.1 < q.1 ∨ (p.1 = q.1 ∧ p.2 < q.2)) := by
  rw [← pairLt_iff]
  cases pairLt p q <;> simp

lemma lowerBoundIdx_le (ms : List AddrRange) (r : AddrRange) :
    lowerBoundIdx ms r ≤ ms.length :=
  takeWhile_le_length _ ms

lemma lowerBoundIdx_lt_true (ms : List AddrRange) (r : AddrRange) (j : Nat)
    (hj : j < lowerBoundIdx ms r) : pairLt (elemAt ms j) r = true :=
  takeWhile_elemAt_true _ ms j hj

lemma lowerBoundIdx_at_false (ms : List AddrRange) (r : AddrRange)
    (h : lowerBoundIdx ms r < ms.length) : pairLt (elemAt ms (lowerBoundIdx ms r)) r = false :=
  takeWhile_elemAt_false _ ms h

lemma insertPos_facts (ms : List AddrRange) (range : AddrRange)
    (hInv : AddrSetInv ms) (hne : ms ≠ []) (_hV : ValidR range) :
    insertPos ms range < ms.length ∧
    (∀ s ∈ ms.take (insertPos ms range), SepR s range) ∧
    ((elemAt ms (insertPos ms range)).2 + 1 < range.1 → insertPos ms range + 1 = ms.length) := by
  obtain ⟨hVall, hPW⟩ := hInv
  have hlen : 0 < ms.length := List.length_pos.mpr hne
  have hLB : lowerBoundIdx ms range ≤ ms.length := lowerBoundIdx_le ms range
  unfold insertPos
  by_cases h0 : lowerBoundIdx ms range = 0
  · rw [if_pos h0]
    refine ⟨hlen, by simp, ?_⟩
    intro hgt
    exfalso
    have hf : pairLt (elemAt ms 0) range = false := by
      have := lowerBoundIdx_at_false ms range (by omega)
      rwa [h0] at this
    have hV0 : ValidR (elemAt ms 0) := hVall _ (elemAt_mem ms 0 hlen)
    rw [pairLt_eq_false_iff] at hf
    have := hV0.1
    omega
  · rw [if_neg h0]
    by_cases hN : lowerBoundIdx ms range = ms.length
    · rw [if_pos hN]
      have hidx : ms.length - 1 < ms.length := by omega
      refine ⟨hidx, ?_, fun _ => by omega⟩
      intro s hs
      obtain ⟨j, hj1, hj2, hjeq⟩ := mem_take_iff ms (ms.length - 1) s hs
      have hit : pairLt (elemAt ms (ms.length - 1)) range = true :=
        lowerBoundIdx_lt_true ms range _ (by omega)
      have hsep : SepR (elemAt ms j) (elemAt ms (ms.length - 1)) :=
        pairwise_elemAt ms hPW j _ (by omega) hidx
      rw [pairLt_iff] at hit
      rw [← hjeq]
      unfold SepR at hsep ⊢
      omega
    · rw [if_neg hN]
      have h0' : 0 < lowerBoundIdx ms range := Nat.pos_of_ne_zero h0
      have hNlt : lowerBoundIdx ms range < ms.length := by omega
      have hVprev : ValidR (elemAt ms (lowerBoundIdx ms range - 1)) :=
        hVall _ (elemAt_mem _ _ (by omega))
      have hsucc : succW (elemAt ms (lowerBoundIdx ms range - 1)).2 =
          (elemAt ms (lowerBoundIdx ms range - 1)).2 + 1 := succW_eq _ hVprev.2
      by_cases hB : succW (elemAt ms (lowerBoundIdx ms range - 1)).2 < range.1
      · rw [if_pos (decide_eq_true hB)]
        rw [hsucc] at hB
        refine ⟨hNlt, ?_, ?_⟩
        · intro s hs
          obtain ⟨j, hj1, hj2, hjeq⟩ := mem_take_iff ms _ s hs
          by_cases hjp : j = lowerBoundIdx ms range - 1
          · rw [← hjeq, hjp]
            unfold SepR
            omega
          · have hsep : SepR (elemAt ms j) (elemAt ms (lowerBoundIdx ms range - 1)) :=
              pairwise_elemAt ms hPW _ _ (by omega) (by omega)
            rw [← hjeq]
            unfold SepR at hsep ⊢
            have := hVprev.1
            omega
        · intro hgt
          exfalso
          have hf : pairLt (elemAt ms (lowerBoundIdx ms range)) range = false :=
            lowerBoundIdx_at_false ms range hNlt
          have hVit : ValidR (elemAt ms (lowerBoundIdx ms range)) :=
            hVall _ (elemAt_mem _ _ hNlt)
          rw [pairLt_eq_false_iff] at hf
          have := hVit.1
          omega
      · rw [if_neg (by simpa using hB)]
        rw [hsucc] at hB
        have hit : pairLt (elemAt ms (lowerBoundIdx ms range - 1)) range = true :=
          lowerBoundIdx_lt_true ms range _ (by omega)
        refine ⟨by omega, ?_, ?_⟩
        · intro s hs
          obtain ⟨j, hj1, hj2, hjeq⟩ := mem_take_iff ms _ s hs
          have hsep : SepR (elemAt ms j) (elemAt ms (lowerBoundIdx ms range - 1)) :=
            pairwise_elemAt ms hPW _ _ (by omega) (by omega)
          rw [pairLt_iff] at hit
          rw [← hjeq]
          unfold SepR at hsep ⊢
          omega
        · intro hgt
          exfalso
          omega

lemma mem_msInsert (r s : AddrRange) (ms : List AddrRange) :
    s ∈ msInsert r ms ↔ s = r ∨ s ∈ ms := by
  induction ms with
  | nil => simp [msInsert]
  | cons p t ih =>
    unfold msInsert
    split
    · simp only [List.mem_cons, ih]
      tauto
    · simp only [List.mem_cons]

lemma covered_msInsert (r : AddrRange) (ms : List AddrRange) (p : Nat) :
    covered (msInsert r ms) p = (inR r p || covered ms p) := by
  induction ms with
  | nil => simp [msInsert, covered]
  | cons x t ih =>
    unfold msInsert
    split
    · simp only [covered, List.any_cons] at ih ⊢
      rw [ih]
      cases inR x p <;> cases inR r p <;> simp
    · simp only [covered, List.any_cons]

lemma msInsert_inv (r : AddrRange) (ms : List AddrRange)
    (h1 : ∀ s ∈ ms, ValidR s) (h2 : ms.Pairwise SepR) (hr : ValidR r)
    (hsep : ∀ s ∈ ms, SepR s r ∨ SepR r s) :
    (∀ s ∈ msInsert r ms, ValidR s) ∧ (msInsert r ms).Pairwise SepR := by
  induction ms with
  | nil =>
    refine ⟨?_, List.pairwise_singleton _ _⟩
    intro s hs
    simp only [msInsert, List.mem_singleton] at hs
    rw [hs]
    exact hr
  | cons x t ih =>
    have hx : ValidR x := h1 x (by simp)
    obtain ⟨ih1, ih2⟩ := ih (fun s hs => h1 s (by simp [hs])) (List.Pairwise.of_cons h2)
      (fun s hs => hsep s (by simp [hs]))
    unfold msInsert
    by_cases hpl : pairLt x r = true
    · rw [if_pos hpl]
      have hxr : SepR x r := by
        rcases hsep x (by simp) with h | h
        · exact h
        · exfalso
          rw [pairLt_iff] at hpl
          unfold SepR at h
          have := hr.1
          omega
      refine ⟨?_, List.pairwise_cons.mpr ⟨?_, ih2⟩⟩
      · intro s hs
        rcases List.mem_cons.mp hs with rfl | hs'
        · exact hx
        · exact ih1 s hs'
      · intro s hs
        rcases (mem_msInsert r s t).mp hs with rfl | hs'
        · exact hxr
        · exact (List.pairwise_cons.mp h2).1 s hs'
    · rw [if_neg hpl]
      have hrx : SepR r x := by
        rcases hsep x (by simp) with h | h
        · exfalso
          have hpf := (pairLt_eq_false_iff x r).mp (by simpa using hpl)
          unfold SepR at h
          have := hx.1
          omega
        · exact h
      refine ⟨?_, List.pairwise_cons.mpr ⟨?_, h2⟩⟩
      · intro s hs
        rcases List.mem_cons.mp hs with rfl | hs'
        · exact hr
        · exact h1 s hs'
      · intro s hs
        rcases List.mem_cons.mp hs with rfl | hs'
        · exact hrx
        · have hxs := (List.pairwise_cons.mp h2).1 s hs'
          unfold SepR at hrx hxs ⊢
          have := hx.1
          omega

lemma drop_eq_elemAt_cons (ms : List AddrRange) (idx : Nat) (h : idx < ms.length) :
    ms.drop idx = elemAt ms idx :: ms.drop (idx + 1) := by
  rw [List.drop_eq_get_cons h]
  unfold elemAt
  rw [List.getD_eq_get ms (0, 0) h]

lemma covered_append (l l' : List AddrRange) (p : Nat) :
    covered (l ++ l') p = (covered l p || covered l' p) := by
  simp [covered, List.any_append]

lemma covered_decomp (ms : List AddrRange) (idx : Nat) (hlt : idx < ms.length) (p : Nat) :
    covered ms p =
      (covered (ms.take idx) p || inR (elemAt ms idx) p || covered (ms.drop (idx + 1)) p) := by
  conv_lhs => rw [← List.take_append_drop idx ms, drop_eq_elemAt_cons ms idx hlt]
  simp only [covered, List.any_append, List.any_cons]
  cases covered (ms.take idx) p <;> cases inR (elemAt ms idx) p <;> simp [covered]

lemma covered_eraseIdx (ms : List AddrRange) (idx : Nat) (hlt : idx < ms.length) (p : Nat) :
    covered ms p = (covered (ms.eraseIdx idx) p || inR (elemAt ms idx) p) := by
  rw [covered_decomp ms idx hlt p, List.eraseIdx_eq_take_drop_succ, covered_append]
  cases covered (ms.take idx) p <;> cases inR (elemAt ms idx) p <;> simp

lemma mem_decomp (ms : List AddrRange) (idx : Nat) (hlt : idx < ms.length) (s : AddrRange)
    (hs : s ∈ ms) :
    s ∈ ms.take idx ∨ s = elemAt ms idx ∨ s ∈ ms.drop (idx + 1) := by
  rw [← List.take_append_drop idx ms, drop_eq_elemAt_cons ms idx hlt] at hs
  rcases List.mem_append.mp hs with h | h
  · exact Or.inl h
  · rcases List.mem_cons.mp h with h | h
    · exact Or.inr (Or.inl h)
    · exact Or.inr (Or.inr h)

lemma mem_eraseIdx_decomp (ms : List AddrRange) (idx : Nat) (s : AddrRange)
    (hs : s ∈ ms.eraseIdx idx) : s ∈ ms.take idx ∨ s ∈ ms.drop (idx + 1) := by
  rw [List.eraseIdx_eq_take_drop_succ] at hs
  exact List.mem_append.mp hs

lemma mem_drop_iff (ms : List AddrRange) (n : Nat) (s : AddrRange) (hs : s ∈ ms.drop n) :
    ∃ j, n ≤ j ∧ j < ms.length ∧ elemAt ms j = s := by
  obtain ⟨⟨j, hj⟩, hget⟩ := List.get_of_mem hs
  have hjlen : n + j < ms.length := by
    have := List.length_drop n ms
    omega
  refine ⟨n + j, by omega, hjlen, ?_⟩
  unfold elemAt
  rw [List.getD_eq_get ms (0, 0) hjlen, ← hget]
  exact List.get_drop ms hjlen

lemma inv_eraseIdx (ms : List AddrRange) (idx : Nat) (hInv : AddrSetInv ms) :
    AddrSetInv (ms.eraseIdx idx) := by
  refine ⟨?_, List.Pairwise.sublist (List.eraseIdx_sublist ms idx) hInv.2⟩
  intro s hs
  exact hInv.1 s (List.Sublist.mem hs (List.eraseIdx_sublist ms idx))

lemma pairwise_drop_sep (ms : List AddrRange) (idx : Nat)
    (hPW : ms.Pairwise SepR) (s : AddrRange) (hs : s ∈ ms.drop (idx + 1)) :
    SepR (elemAt ms idx) s := by
  obtain ⟨j, hj1, hj2, hjeq⟩ := mem_drop_iff ms (idx + 1) s hs
  rw [← hjeq]
  exact pairwise_elemAt ms hPW idx j (by omega) hj2

lemma insertFuel_spec :
    ∀ (fuel : Nat) (ms : List AddrRange) (range : AddrRange),
      ms.length < fuel → AddrSetInv ms → ValidR range →
      AddrSetInv (insertFuel fuel ms range) ∧
      ∀ p, covered (insertFuel fuel ms range) p = (covered ms p || inR range p) := by
  intro fuel
  induction fuel with
  | zero =>
    intro ms range h _ _
    exact absurd h (Nat.not_lt_zero _)
  | succ fuel ih =>
    intro ms range hlen hInv hV
    by_cases hms : ms = []
    · subst hms
      have hnil : insertFuel (fuel + 1) ([] : List AddrRange) range = [range] := by
        simp [insertFuel]
      rw [hnil]
      constructor
      · refine ⟨?_, List.pairwise_singleton _ _⟩
        intro s hs
        rw [List.mem_singleton] at hs
        rw [hs]
        exact hV
      · intro p
        simp [covered]
    · obtain ⟨hidx, hLsep, hAtEnd⟩ := insertPos_facts ms range hInv hms hV
      have hVit : ValidR (elemAt ms (insertPos ms range)) := hInv.1 _ (elemAt_mem _ _ hidx)
      have hEr : AddrSetInv (ms.eraseIdx (insertPos ms range)) := inv_eraseIdx ms _ hInv
      have hErLen : (ms.eraseIdx (insertPos ms range)).length < fuel := by
        rw [List.length_eraseIdx, if_pos hidx]
        have hp : 0 < ms.length := List.length_pos.mpr hms
        omega
      have hCov := covered_eraseIdx ms (insertPos ms range) hidx
      have hsuccit : succW (elemAt ms (insertPos ms range)).2 =
          (elemAt ms (insertPos ms range)).2 + 1 := succW_eq _ hVit.2
      have hsuccr : succW range.2 = range.2 + 1 := succW_eq _ hV.2
      simp only [insertFuel]
      rw [if_neg hms]
      set idx := insertPos ms range with hidx_def
      set it := elemAt ms idx with hit_def
      by_cases c1 : range.1 = succW it.2
      · rw [if_pos c1]
        rw [hsuccit] at c1
        have hVm : ValidR (it.1, range.2) := by
          refine ⟨?_, hV.2⟩
          have := hVit.1
          have := hV.1
          omega
        obtain ⟨ih1, ih2⟩ := ih (ms.eraseIdx idx) (it.1, range.2) hErLen hEr hVm
        refine ⟨ih1, ?_⟩
        intro p
        rw [ih2 p, hCov p]
        have hm : inR (it.1, range.2) p = (inR it p || inR range p) := by
          unfold inR
          rw [Bool.eq_iff_iff]
          simp only [Bool.or_eq_true, Bool.and_eq_true, decide_eq_true_eq]
          have := hVit.1
          have := hV.1
          omega
        rw [hm]
        cases covered (ms.eraseIdx idx) p <;> cases inR it p <;> cases inR range p <;> simp
      · rw [if_neg c1]
        by_cases c2 : succW range.2 = it.1
        · rw [if_pos c2]
          rw [hsuccr] at c2
          have hVm : ValidR (range.1, it.2) := by
            refine ⟨?_, hVit.2⟩
            have := hVit.1
            have := hV.1
            omega
          obtain ⟨ih1, ih2⟩ := ih (ms.eraseIdx idx) (range.1, it.2) hErLen hEr hVm
          refine ⟨ih1, ?_⟩
          intro p
          rw [ih2 p, hCov p]
          have hm : inR (range.1, it.2) p = (inR it p || inR range p) := by
            unfold inR
            rw [Bool.eq_iff_iff]
            simp only [Bool.or_eq_true, Bool.and_eq_true, decide_eq_true_eq]
            have := hVit.1
            have := hV.1
            omega
          rw [hm]
          cases covered (ms.eraseIdx idx) p <;> cases inR it p <;> cases inR range p <;> simp
        · rw [if_neg c2]
          by_cases c3 : it.2 < range.1
          · rw [if_pos (decide_eq_true c3)]
            have hstrict : it.2 + 1 < range.1 := by
              rcases Nat.lt_or_ge (it.2 + 1) range.1 with h | h
              · exact h
              · exfalso
                apply c1
                rw [hsuccit]
                omega
            have hdropnil : ms.drop (idx + 1) = [] := by
              rw [hAtEnd hstrict]
              exact List.drop_length ms
            have hsep : ∀ s ∈ ms, SepR s range ∨ SepR range s := by
              intro s hs
              rcases mem_decomp ms idx hidx s hs with h | h | h
              · exact Or.inl (hLsep s h)
              · left
                rw [h, ← hit_def]
                exact hstrict
              · rw [hdropnil] at h
                simp at h
            obtain ⟨mi1, mi2⟩ := msInsert_inv range ms hInv.1 hInv.2 hV hsep
            refine ⟨⟨mi1, mi2⟩, ?_⟩
            intro p
            rw [covered_msInsert]
            cases covered ms p <;> cases inR range p <;> simp
          · rw [if_neg (by simpa using c3)]
            by_cases c4 : it.1 ≤ range.1
            · rw [if_pos (decide_eq_true c4)]
              by_cases c5 : it.2 < range.2
              · rw [if_pos (decide_eq_true c5)]
                have hVm : ValidR (it.1, range.2) := by
                  refine ⟨?_, hV.2⟩
                  have := hV.1
                  omega
                obtain ⟨ih1, ih2⟩ := ih (ms.eraseIdx idx) (it.1, range.2) hErLen hEr hVm
                refine ⟨ih1, ?_⟩
                intro p
                rw [ih2 p, hCov p]
                have hm : inR (it.1, range.2) p = (inR it p || inR range p) := by
                  unfold inR
                  rw [Bool.eq_iff_iff]
                  simp only [Bool.or_eq_true, Bool.and_eq_true, decide_eq_true_eq]
                  have h3 : range.1 ≤ it.2 := Nat.le_of_not_lt c3
                  have := hVit.1
                  have := hV.1
                  omega
                rw [hm]
                cases covered (ms.eraseIdx idx) p <;> cases inR it p <;> cases inR range p <;> simp
              · rw [if_neg (by simpa using c5)]
                refine ⟨hInv, ?_⟩
                intro p
                have himp : inR range p = true → inR it p = true := by
                  unfold inR
                  simp only [Bool.and_eq_true, decide_eq_true_eq]
                  have h5 : range.2 ≤ it.2 := Nat.le_of_not_lt c5
                  omega
                cases hr : inR range p
                · simp
                · rw [hCov p, himp hr]
                  simp
            · rw [if_neg (by simpa using c4)]
              have c4' : range.1 < it.1 := Nat.lt_of_not_le c4
              by_cases c6 : range.2 < it.1
              · rw [if_pos (decide_eq_true c6)]
                have hstrict : range.2 + 1 < it.1 := by
                  rcases Nat.lt_or_ge (range.2 + 1) it.1 with h | h
                  · exact h
                  · exfalso
                    apply c2
                    rw [hsuccr]
                    omega
                have hsep : ∀ s ∈ ms, SepR s range ∨ SepR range s := by
                  intro s hs
                  rcases mem_decomp ms idx hidx s hs with h | h | h
                  · exact Or.inl (hLsep s h)
                  · right
                    rw [h, ← hit_def]
                    exact hstrict
                  · right
                    have hsd := pairwise_drop_sep ms idx hInv.2 s h
                    rw [← hit_def] at hsd
                    unfold SepR at hsd ⊢
                    have := hVit.1
                    omega
                obtain ⟨mi1, mi2⟩ := msInsert_inv range ms hInv.1 hInv.2 hV hsep
                refine ⟨⟨mi1, mi2⟩, ?_⟩
                intro p
                rw [covered_msInsert]
                cases covered ms p <;> cases inR range p <;> simp
              · rw [if_neg (by simpa using c6)]
                have c6' : it.1 ≤ range.2 := Nat.le_of_not_lt c6
                by_cases c7 : range.2 ≤ it.2
                · rw [if_pos (decide_eq_true c7)]
                  have hVm : ValidR (range.1, it.2) := by
                    refine ⟨?_, hVit.2⟩
                    have := hVit.1
                    omega
                  have hsep : ∀ s ∈ ms.eraseIdx idx,
                      SepR s (range.1, it.2) ∨ SepR (range.1, it.2) s := by
                    intro s hs
                    rcases mem_eraseIdx_decomp ms idx s hs with h | h
                    · left
                      have hls := hLsep s h
                      unfold SepR at hls ⊢
                      omega
                    · right
                      have hsd := pairwise_drop_sep ms idx hInv.2 s h
                      rw [← hit_def] at hsd
                      unfold SepR at hsd ⊢
                      omega
                  obtain ⟨mi1, mi2⟩ :=
                    msInsert_inv (range.1, it.2) (ms.eraseIdx idx) hEr.1 hEr.2 hVm hsep
                  refine ⟨⟨mi1, mi2⟩, ?_⟩
                  intro p
                  rw [covered_msInsert, hCov p]
                  have hm : inR (range.1, it.2) p = (inR it p || inR range p) := by
                    unfold inR
                    rw [Bool.eq_iff_iff]
                    simp only [Bool.or_eq_true, Bool.and_eq_true, decide_eq_true_eq]
                    have := hVit.1
                    have := hV.1
                    omega
                  rw [hm]
                  cases covered (ms.eraseIdx idx) p <;> cases inR it p <;>
                    cases inR range p <;> simp
                · rw [if_neg (by simpa using c7)]
                  have c7' : it.2 < range.2 := Nat.lt_of_not_le c7
                  obtain ⟨ih1, ih2⟩ := ih (ms.eraseIdx idx) range hErLen hEr hV
                  refine ⟨ih1, ?_⟩
                  intro p
                  rw [ih2 p, hCov p]
                  have himp : inR it p = true → inR range p = true := by
                    unfold inR
                    simp only [Bool.and_eq_true, decide_eq_true_eq]
                    omega
                  cases hi : inR it p
                  · simp
                  · rw [himp hi]
                    simp

lemma covered_head (r : AddrRange) (t : List AddrRange) (hr : r.1 ≤ r.2) :
    covered (r :: t) r.1 = true := by
  simp [covered, List.any_cons, inR, hr]

lemma covered_min (r : AddrRange) (t : List AddrRange) (hInv : AddrSetInv (r :: t))
    (p : Nat) (hp : covered (r :: t) p = true) : r.1 ≤ p := by
  simp only [covered, List.any_eq_true] at hp
  obtain ⟨s, hs, hin⟩ := hp
  unfold inR at hin
  simp only [Bool.and_eq_true, decide_eq_true_eq] at hin
  rcases List.mem_cons.mp hs with rfl | hst
  · exact hin.1
  · have hsep := (List.pairwise_cons.mp hInv.2).1 s hst
    have hvr : ValidR r := hInv.1 r (List.mem_cons_self r t)
    unfold SepR at hsep
    have := hvr.1
    omega

lemma covered_tail_false (r : AddrRange) (t : List AddrRange) (hInv : AddrSetInv (r :: t))
    (p : Nat) (hp : p ≤ r.2 + 1) : covered t p = false := by
  rw [covered, List.any_eq_false]
  intro s hst
  have hsep := (List.pairwise_cons.mp hInv.2).1 s hst
  unfold SepR at hsep
  unfold inR
  simp only [Bool.and_eq_true, decide_eq_true_eq, not_and]
  intro h1
  omega

lemma addrset_inv_of_cons (r : AddrRange) (t : List AddrRange)
    (h : AddrSetInv (r :: t)) : AddrSetInv t :=
  ⟨fun s hs => h.1 s (List.mem_cons_of_mem r hs), h.2.of_cons⟩

lemma head_snd_le (r : AddrRange) (t : List AddrRange) (r' : AddrRange)
    (t' : List AddrRange) (h1 : AddrSetInv (r :: t)) (_h2 : AddrSetInv (r' :: t'))
    (hcov : ∀ p, covered (r :: t) p = covered (r' :: t') p) (hfst : r.1 = r'.1) :
    r'.2 ≤ r.2 := by
  by_contra hgt
  have hlt : r.2 < r'.2 := Nat.lt_of_not_le hgt
  have hvr : ValidR r := h1.1 r (List.mem_cons_self r t)
  have hc : covered (r' :: t') (r.2 + 1) = true := by
    simp only [covered, List.any_cons]
    have hin : inR r' (r.2 + 1) = true := by
      unfold inR
      simp only [Bool.and_eq_true, decide_eq_true_eq]
      have := hvr.1
      omega
    rw [hin]
    simp
  rw [← hcov (r.2 + 1)] at hc
  simp only [covered, List.any_cons] at hc
  have ht : covered t (r.2 + 1) = false :=
    covered_tail_false r t h1 (r.2 + 1) (by omega)
  have hrf : inR r (r.2 + 1) = false := by
    have hnp : ¬(r.2 + 1 ≤ r.2) := by omega
    simp [inR, hnp]
  rw [hrf] at hc
  simp only [covered] at ht
  rw [ht] at hc
  simp at hc

lemma addrset_canonical (ms : List AddrRange) :
    ∀ ms', AddrSetInv ms → AddrSetInv ms' → (∀ p, covered ms p = covered ms' p) →
      ms = ms' := by
  induction ms with
  | nil =>
    intro ms' _ h2 hcov
    cases ms' with
    | nil => rfl
    | cons r' t' =>
      exfalso
      have hv : ValidR r' := h2.1 r' (List.mem_cons_self r' t')
      have hh := covered_head r' t' hv.1
      rw [← hcov r'.1] at hh
      simp [covered] at hh
  | cons r t ihms =>
    intro ms' h1 h2 hcov
    cases ms' with
    | nil =>
      exfalso
      have hv : ValidR r := h1.1 r (List.mem_cons_self r t)
      have hh := covered_head r t hv.1
      rw [hcov r.1] at hh
      simp [covered] at hh
    | cons r' t' =>
      have hvr : ValidR r := h1.1 r (List.mem_cons_self r t)
      have hvr' : ValidR r' := h2.1 r' (List.mem_cons_self r' t')
      have hf1 : r'.1 ≤ r.1 :=
        covered_min r' t' h2 r.1 ((hcov r.1) ▸ covered_head r t hvr.1)
      have hf2 : r.1 ≤ r'.1 :=
        covered_min r t h1 r'.1 ((hcov r'.1).symm ▸ covered_head r' t' hvr'.1)
      have hfst : r.1 = r'.1 := Nat.le_antisymm hf2 hf1
      have hsnd : r.2 = r'.2 := by
        refine Nat.le_antisymm ?_ ?_
        · exact head_snd_le r' t' r t h2 h1 (fun p => (hcov p).symm) hfst.symm
        · exact head_snd_le r t r' t' h1 h2 hcov hfst
      have hcovt : ∀ p, covered t p = covered t' p := by
        intro p
        by_cases hp : p ≤ r.2 + 1
        · rw [covered_tail_false r t h1 p hp,
            covered_tail_false r' t' h2 p (by omega)]
        · have hnp : ¬(p ≤ r.2) := by omega
          have hnp' : ¬(p ≤ r'.2) := by omega
          have hrf : inR r p = false := by simp [inR, hnp]
          have hrf' : inR r' p = false := by simp [inR, hnp']
          have e1 := hcov p
          simp only [covered, List.any_cons, hrf, hrf'] at e1
          simpa [covered] using e1
      have hteq : t = t' :=
        ihms t' (addrset_inv_of_cons r t h1) (addrset_inv_of_cons r' t' h2) hcovt
      rw [hteq, Prod.ext hfst hsnd]

lemma fold_insert_spec (rs : List AddrRange) :
    ∀ ms, (∀ r ∈ rs, ValidR r) → AddrSetInv ms →
      AddrSetInv (rs.foldl AddrSet.insert ms) ∧
      ∀ p, covered (rs.foldl AddrSet.insert ms) p = (covered ms p || covered rs p) := by
  induction rs with
  | nil =>
    intro ms _ hInv
    refine ⟨hInv, ?_⟩
    intro p
    simp [covered]
  | cons r t ih =>
    intro ms hval hInv
    have hvr : ValidR r := hval r (List.mem_cons_self r t)
    obtain ⟨hi1, hi2⟩ :=
      insertFuel_spec (ms.length + 1) ms r (Nat.lt_succ_self _) hInv hvr
    obtain ⟨hf1, hf2⟩ := ih (AddrSet.insert ms r)
      (fun s hs => hval s (List.mem_cons_of_mem r hs)) hi1
    refine ⟨hf1, ?_⟩
    intro p
    rw [List.foldl_cons]
    rw [hf2 p]
    show (covered (insertFuel (ms.length + 1) ms r) p || covered t p) = _
    rw [hi2 p]
    simp only [covered, List.any_cons]
    cases covered ms p <;> cases inR r p <;> simp [covered]

lemma cellAt_updateReader (sh : STShadowMemory) (a n : Nat) (tid : Nat) (b : Nat) :
    ((sh.updateReader a n tid).cellAt b).writerTID = (sh.cellAt b).writerTID ∧
    ((sh.updateReader a n tid).cellAt b).writerEID = (sh.cellAt b).writerEID := by
  unfold STShadowMemory.updateReader STShadowMemory.cellAt
  dsimp only
  split
  · exact ⟨rfl, rfl⟩
  · exact ⟨rfl, rfl⟩

lemma readByte_spec (sh : STShadowMemory) (tid : Nat)
    (cp : STCompEvent) (cm : STCommEvent) (flag : Bool) (a : Nat) :
    ThreadContext.readByte tid (sh, cp, cm, flag) a =
      if commByte sh tid a then
        (sh.updateReader a 1 tid, cp,
          cm.addEdge (((sh.cellAt a).writerTID).getD 0) ((sh.cellAt a).writerEID) a, true)
      else
        ((if decide (a < sh.limit) && !((sh.cellAt a).readers.contains tid) then
            sh.updateReader a 1 tid
          else sh),
          cp.updateReads a 1, cm, flag) := by
  unfold ThreadContext.readByte commByte
  by_cases h1 : a < sh.limit
  · by_cases h2 : (sh.cellAt a).readers.contains tid
    · have h2m : tid ∈ (sh.cellAt a).readers := by simpa using h2
      simp [h1, h2, h2m]
    · have h2m : tid ∉ (sh.cellAt a).readers := by simpa using h2
      by_cases h3 : (sh.cellAt a).writerTID = some tid
      · simp [h1, h2, h2m, h3]
      · by_cases h4 : (sh.cellAt a).writerTID = none
        · simp [h1, h2, h2m, h3, h4]
        · simp [h1, h2, h2m, h3, h4, (cellAt_updateReader sh a 1 tid a).2]
  · simp [h1]

/-- C1: each byte of a load is classified as a communication edge exactly
when the byte is mapped, its shadow writer is defined and different from
the reading thread, and the thread was not already in the byte's reader
set; the added edge is `(writer, writer's recorded Nat, byte)`.  In every
other case — including an out-of-range byte — the byte is recorded as a
local read range in the compute aggregator. -/
theorem claim1_load_byte_classification (sh : STShadowMemory) (tid : Nat)
    (cp : STCompEvent) (cm : STCommEvent) (flag : Bool) (a : Nat) :
    ThreadContext.readByte tid (sh, cp, cm, flag) a =
      if commByte sh tid a then
        (sh.updateReader a 1 tid, cp,
          cm.addEdge (((sh.cellAt a).writerTID).getD 0) ((sh.cellAt a).writerEID) a, true)
      else
        ((if decide (a < sh.limit) && !((sh.cellAt a).readers.contains tid) then
            sh.updateReader a 1 tid
          else sh),
          cp.updateReads a 1, cm, flag) :=
  readByte_spec sh tid cp cm flag a

/-- C2 counterexample: inserting the single-byte ranges
`(2^64 - 1, 2^64 - 1)` and `(0, 0)` — both satisfying `a ≤ b` — makes the
wrapped adjacency check `range.first == it->second + 1` fire spuriously
(`(2^64 - 1) + 1` wraps to `0`), so the two ranges are fused into the
inverted pair `(2^64 - 1, 0)`: the stored set no longer covers the
inserted point `0`, and the stored pair violates `first ≤ second`. -/
theorem claim2_wrap_counterexample :
    ([( W - 1, W - 1), (0, 0)] : List AddrRange).foldl AddrSet.insert [] = [(W - 1, 0)] ∧
    covered (([(W - 1, W - 1), (0, 0)] : List AddrRange).foldl AddrSet.insert []) 0 = false ∧
    covered [(W - 1, W - 1), (0, 0)] 0 = true ∧
    (W - 1 ≤ W - 1 ∧ (0 : Nat) ≤ 0) := by
  decide

/-- C2 (amended): for every sequence of inserted ranges `(a, b)` with
`a ≤ b` and `b + 1 < 2^64` (so that the unsigned successor `b + 1`
computed by the merge checks does not wrap), the stored set covers
exactly the union of the inserted point-sets, its ranges are ordered and
pairwise separated (no two stored ranges overlap or are adjacent:
`y + 1 = x'` never holds), and the stored set is identical for any
reordering of the insertions. -/
theorem claim2_insert_coalescing (rs : List AddrRange)
    (hval : ∀ r ∈ rs, r.1 ≤ r.2 ∧ r.2 + 1 < W) :
    (∀ p, covered (rs.foldl AddrSet.insert []) p = covered rs p) ∧
    (∀ r ∈ rs.foldl AddrSet.insert [], r.1 ≤ r.2) ∧
    (rs.foldl AddrSet.insert []).Pairwise SepR ∧
    (∀ rs' : List AddrRange, rs'.Perm rs →
      rs'.foldl AddrSet.insert [] = rs.foldl AddrSet.insert []) := by
  have hbase : AddrSetInv ([] : List AddrRange) := ⟨by simp, List.Pairwise.nil⟩
  obtain ⟨hInv, hcov⟩ := fold_insert_spec rs [] hval hbase
  refine ⟨?_, fun r hr => (hInv.1 r hr).1, hInv.2, ?_⟩
  · intro p
    rw [hcov p]
    simp [covered]
  · intro rs' hperm
    have hval' : ∀ r ∈ rs', ValidR r := fun r hr => hval r (hperm.mem_iff.mp hr)
    obtain ⟨hInv', hcov'⟩ := fold_insert_spec rs' [] hval' hbase
    apply addrset_canonical _ _ hInv' hInv
    intro p
    rw [hcov p, hcov' p]
    have hpm : covered rs' p = covered rs p := by
      rw [Bool.eq_iff_iff]
      simp only [covered, List.any_eq_true]
      constructor
      · rintro ⟨x, hx, hx2⟩
        exact ⟨x, hperm.mem_iff.mp hx, hx2⟩
      · rintro ⟨x, hx, hx2⟩
        exact ⟨x, hperm.mem_iff.mpr hx, hx2⟩
    rw [hpm]

/-- Witness for `claim2_insert_coalescing` on a concrete insertion
sequence. -/
theorem claim2_insert_coalescing_witness :
    (∀ r ∈ ([(1, 2), (5, 6), (3, 3)] : List AddrRange), r.1 ≤ r.2 ∧ r.2 + 1 < W) ∧
    ((∀ p, covered (([(1, 2), (5, 6), (3, 3)] : List AddrRange).foldl AddrSet.insert []) p =
        covered [(1, 2), (5, 6), (3, 3)] p) ∧
      (∀ r ∈ ([(1, 2), (5, 6), (3, 3)] : List AddrRange).foldl AddrSet.insert [],
        r.1 ≤ r.2) ∧
      (([(1, 2), (5, 6), (3, 3)] : List AddrRange).foldl AddrSet.insert []).Pairwise SepR ∧
      (∀ rs' : List AddrRange, rs'.Perm [(1, 2), (5, 6), (3, 3)] →
        rs'.foldl AddrSet.insert [] =
          ([(1, 2), (5, 6), (3, 3)] : List AddrRange).foldl AddrSet.insert [])) :=
  ⟨by decide, claim2_insert_coalescing [(1, 2), (5, 6), (3, 3)] (by decide)⟩

/-- C3 counterexample: a communication-classified load followed by a
store leaves BOTH aggregators active at once — the store activates the
compute aggregator without flushing the communication aggregator, so "at
most one of the two aggregators is active at any instant" is false. -/
theorem claim3_both_active_counterexample :
    ((runPrims shT1At100 (ThreadContext.start 2 100)
        [Prim.load 100 1, Prim.store 200 1]).2.stComp.isActive = true) ∧
    ((runPrims shT1At100 (ThreadContext.start 2 100)
        [Prim.load 100 1, Prim.store 200 1]).2.stComm.isActive = true) := by
  decide

lemma checkCompFlushLimit_comp_inactive (s : ThreadContext)
    (h : s.stComp.isActive = false) :
    (s.checkCompFlushLimit).stComp = s.stComp ∧
    (s.checkCompFlushLimit).stComm = s.stComm ∧
    (s.checkCompFlushLimit).trace = s.trace := by
  unfold ThreadContext.checkCompFlushLimit ThreadContext.compFlushIfActive
  split
  · rw [h]
    simp
  · exact ⟨rfl, rfl, rfl⟩

lemma compFlushIfActive_comp_inactive (s : ThreadContext) :
    ((s.compFlushIfActive).stComp.isActive = false) ∧
    (s.compFlushIfActive).stComm = s.stComm := by
  unfold ThreadContext.compFlushIfActive ThreadContext.bumpEID
  split
  · split <;> exact ⟨rfl, rfl⟩
  · next h => exact ⟨by simpa using h, rfl⟩

lemma commFlushIfActive_comm_inactive (s : ThreadContext) :
    ((s.commFlushIfActive).stComm.isActive = false) ∧
    (s.commFlushIfActive).stComp = s.stComp := by
  unfold ThreadContext.commFlushIfActive ThreadContext.bumpEID
  split
  · split <;> exact ⟨rfl, rfl⟩
  · next h => exact ⟨by simpa using h, rfl⟩

lemma checkCompFlushLimit_at_most_one (s : ThreadContext)
    (h : s.stComm.isActive = false) :
    ((s.checkCompFlushLimit).stComp.isActive = false ∨
     (s.checkCompFlushLimit).stComm.isActive = false) := by
  unfold ThreadContext.checkCompFlushLimit
  split
  · right
    rw [(compFlushIfActive_comp_inactive s).2]
    exact h
  · right
    exact h

/-- C3 (amended): the at-most-one-active discipline does hold on every
path that can activate an aggregator except the store path: after any
IOP, FLOP, load, or sync primitive processed from a non-fatal state, at
most one of the two aggregators is active (each of those paths flushes
the other side first).  A store activates the compute aggregator without
flushing the communication aggregator (see the counterexample). -/
theorem claim3_at_most_one_active (sh : STShadowMemory) (s : ThreadContext)
    (start bytes : Nat) (ty : Nat) (addr : Nat) (hf : s.fatal = false) :
    ((s.onIop).stComp.isActive = false ∨ (s.onIop).stComm.isActive = false) ∧
    ((s.onFlop).stComp.isActive = false ∨ (s.onFlop).stComm.isActive = false) ∧
    ((s.onSync ty addr).stComp.isActive = false ∨
      (s.onSync ty addr).stComm.isActive = false) ∧
    (((ThreadContext.onRead sh s start bytes).2).stComp.isActive = false ∨
      ((ThreadContext.onRead sh s start bytes).2).stComm.isActive = false) := by
  refine ⟨?_, ?_, ?_, ?_⟩
  · unfold ThreadContext.onIop
    rw [if_neg (by simp [hf])]
    right
    simpa using (commFlushIfActive_comm_inactive s).1
  · unfold ThreadContext.onFlop
    rw [if_neg (by simp [hf])]
    right
    simpa using (commFlushIfActive_comm_inactive s).1
  · unfold ThreadContext.onSync
    rw [if_neg (by simp [hf])]
    right
    simpa using (commFlushIfActive_comm_inactive s.compFlushIfActive).1
  · unfold ThreadContext.onRead
    rw [if_neg (by simp [hf])]
    dsimp only
    generalize (List.range bytes).foldl
      (fun x i => ThreadContext.readByte s.tid x ((start + i) % W))
      (sh, s.stComp, s.stComm, false) = t
    obtain ⟨sh', cp', cm', flag⟩ := t
    dsimp only
    cases flag
    · rw [if_pos rfl]
      have h1 : (({ s with stComp := cp', stComm := cm' } :
          ThreadContext).commFlushIfActive).stComm.isActive = false :=
        (commFlushIfActive_comm_inactive _).1
      have h2 := checkCompFlushLimit_at_most_one
        { ({ s with stComp := cp', stComm := cm' } :
            ThreadContext).commFlushIfActive with
          stComp := (({ s with stComp := cp', stComm := cm' } :
            ThreadContext).commFlushIfActive).stComp.incReads }
        (by simpa using h1)
      simpa using h2
    · rw [if_neg (by simp)]
      have h1 : (({ s with stComp := cp', stComm := cm' } :
          ThreadContext).compFlushIfActive).stComp.isActive = false :=
        (compFlushIfActive_comp_inactive _).1
      have h2 := checkCompFlushLimit_comp_inactive _ h1
      left
      simpa [h2.1] using h1

/-- Witness for `claim3_at_most_one_active` at a concrete non-fatal
state. -/
theorem claim3_at_most_one_active_witness :
    ((ThreadContext.start 2 100).fatal = false) ∧
    (((ThreadContext.start 2 100).onIop).stComp.isActive = false ∨
      ((ThreadContext.start 2 100).onIop).stComm.isActive = false) :=
  ⟨by decide,
    (claim3_at_most_one_active shT1At100 (ThreadContext.start 2 100) 100 1 1 5
      (by decide)).1⟩

/-- C4 counterexample: two consecutive sync primitives are both emitted
with Nat `0`: the counter starts at `0`, not `1`, and sync records do not
bump it, so the attached EIDs neither start at 1 nor are duplicate-free. -/
theorem claim4_duplicate_eids_counterexample :
    traceEids (((ThreadContext.start 1 100).onSync 1 5).onSync 1 5).trace = [0, 0] ∧
    ¬ (traceEids (((ThreadContext.start 1 100).onSync 1 5).onSync 1 5).trace).Nodup := by
  decide

/-- C5: after `checkCompFlushLimit` — the compression-cap check run at
the end of every load and store — either the compute aggregator is
inactive or both of its counters are strictly below `primsPerCompEv`;
and concretely, with `primsPerCompEv = 3`, four stores to disjoint
addresses produce exactly two compute events of sizes 3 and 1. -/
theorem claim5_compression_cap :
    (∀ s : ThreadContext,
      (s.checkCompFlushLimit).stComp.isActive = false ∨
      ((s.checkCompFlushLimit).stComp.reads < s.primsPerStCompEv ∧
        (s.checkCompFlushLimit).stComp.writes < s.primsPerStCompEv)) ∧
    (runPrims shEmpty (ThreadContext.start 1 3)
        [Prim.store 10 1, Prim.store 20 1, Prim.store 30 1,
          Prim.store 40 1]).2.shutdown.trace =
      [Record.comp 0 1 0 0 0 3 [(10, 10), (20, 20), (30, 30)] [],
        Record.comp 1 1 0 0 0 1 [(40, 40)] []] := by
  constructor
  · intro s
    unfold ThreadContext.checkCompFlushLimit ThreadContext.compFlushIfActive
      ThreadContext.bumpEID
    split
    · split
      · split <;> simp [STCompEvent.reset]
      · next h2 =>
        left
        simpa using h2
    · next h =>
      right
      push_neg at h
      omega
  · decide

/-- C6: evaluation of the packed-binary compute-event encoder at a
compute event whose read set and write set differ: the emitted
read-address ranges are populated from the write-address set, not from
the aggregator's unique read-range set. -/
theorem claim6_readaddrs_from_writes :
    (CapnLogger.flushComp
        { iops := 0, flops := 0, reads := 1, writes := 1
          uniqueWriteAddrs := [(4096, 4099)], uniqueReadAddrs := [(16388, 16389)]
          isActive := true }).readAddrs = [(4096, 4099)] ∧
    (CapnLogger.flushComp
        { iops := 0, flops := 0, reads := 1, writes := 1
          uniqueWriteAddrs := [(4096, 4099)], uniqueReadAddrs := [(16388, 16389)]
          isActive := true }).readAddrs ≠ [(16388, 16389)] := by
  decide

/-- C7 counterexample: a semaphore-wait sync primitive — not one of the
ten recognized kinds and not `Swap` — is processed without any effect at
all: the dispatcher state is returned unchanged, so the primitive is
silently ignored rather than treated as a fatal `BadSyncCode` error. -/
theorem claim7_silently_ignored_counterexample :
    EventHandlers.onSyncEv dispatchFix .SGLPRIM_SYNC_SEM_WAIT 5 = dispatchFix := by
  rfl

/-- C7 (amended): every frontend sync code outside the ten recognized
kinds and the `Swap` control value is silently ignored: `convertAndFlush`
leaves its translation at `0` and returns without emitting a record or
changing any state; no fatal error is raised. -/
theorem claim7_unknown_sync_ignored (h : EventHandlers) (ty : SyncTypeEnum)
    (id : Nat) (hswap : ty ≠ .SGLPRIM_SYNC_SWAP) (hzero : stSyncTypeOf ty = 0) :
    h.onSyncEv ty id = h := by
  have hcreate : ty ≠ .SGLPRIM_SYNC_CREATE := by
    intro hc
    rw [hc] at hzero
    exact absurd hzero (by decide)
  have hbar : ty ≠ .SGLPRIM_SYNC_BARRIER := by
    intro hc
    rw [hc] at hzero
    exact absurd hzero (by decide)
  unfold EventHandlers.onSyncEv EventHandlers.convertAndFlush
  rw [if_neg hswap, if_neg hcreate, if_neg hbar, hzero]
  simp

/-- Witness for `claim7_unknown_sync_ignored` at the semaphore-post
code. -/
theorem claim7_unknown_sync_ignored_witness :
    (SyncTypeEnum.SGLPRIM_SYNC_SEM_POST ≠ SyncTypeEnum.SGLPRIM_SYNC_SWAP ∧
      stSyncTypeOf .SGLPRIM_SYNC_SEM_POST = 0) ∧
    dispatchFix.onSyncEv .SGLPRIM_SYNC_SEM_POST 7 = dispatchFix :=
  ⟨⟨by decide, by decide⟩,
    claim7_unknown_sync_ignored dispatchFix .SGLPRIM_SYNC_SEM_POST 7 (by decide) (by decide)⟩

lemma W_pos : 0 < W := by decide

lemma memRange_one (a : Nat) (h : a < W) : memRange a 1 = (a, a) := by
  unfold memRange
  have h1 : a + 1 + (W - 1) = a + W := by
    rw [Nat.add_assoc, Nat.add_sub_cancel' W_pos]
  rw [h1, Nat.add_mod_right, Nat.mod_eq_of_lt h]

lemma updateReader_limit (sh : STShadowMemory) (a n : Nat) (tid : Nat) :
    (sh.updateReader a n tid).limit = sh.limit := rfl

lemma cellAt_updateReader_ne (sh : STShadowMemory) (a : Nat) (tid : Nat) (b : Nat)
    (hb : b ≠ a % W) : (sh.updateReader a 1 tid).cellAt b = sh.cellAt b := by
  unfold STShadowMemory.updateReader STShadowMemory.cellAt
  dsimp only
  rw [if_neg]
  intro hcon
  exact hb (by simpa using hcon.1)

lemma readByte_spec' (tid : Nat) (x : STShadowMemory × STCompEvent × STCommEvent × Bool)
    (a : Nat) :
    ThreadContext.readByte tid x a =
      if commByte x.1 tid a then
        (x.1.updateReader a 1 tid, x.2.1,
          x.2.2.1.addEdge (((x.1.cellAt a).writerTID).getD 0) ((x.1.cellAt a).writerEID) a,
          true)
      else
        ((if decide (a < x.1.limit) && !((x.1.cellAt a).readers.contains tid) then
            x.1.updateReader a 1 tid
          else x.1),
          x.2.1.updateReads a 1, x.2.2.1, x.2.2.2) := by
  obtain ⟨sh, cp, cm, f⟩ := x
  exact readByte_spec sh tid cp cm f a

lemma commByte_congr (sh sh' : STShadowMemory) (tid : Nat) (a : Nat)
    (hl : sh'.limit = sh.limit) (hc : sh'.cellAt a = sh.cellAt a) :
    commByte sh' tid a = commByte sh tid a := by
  unfold commByte
  rw [hl, hc]

lemma localReadFold_succ (sh0 : STShadowMemory) (tid : Nat) (start : Nat)
    (base : List AddrRange) (i : Nat) :
    localReadFold sh0 tid start base (i + 1) =
      if commByte sh0 tid (start + i) then localReadFold sh0 tid start base i
      else AddrSet.insert (localReadFold sh0 tid start base i) (start + i, start + i) := by
  unfold localReadFold
  rw [List.range_succ, List.filter_append, List.foldl_append]
  by_cases h : commByte sh0 tid (start + i)
  · simp [h]
  · simp [h]

lemma readLoop_succ (tid : Nat) (start : Nat) (sh0 : STShadowMemory) (cp0 : STCompEvent)
    (cm0 : STCommEvent) (i : Nat) :
    readLoop tid start sh0 cp0 cm0 (i + 1) =
      ThreadContext.readByte tid (readLoop tid start sh0 cp0 cm0 i) ((start + i) % W) := by
  unfold readLoop
  rw [List.range_succ, List.foldl_append]
  rfl

lemma compFlushIfActive_of_inactive (s : ThreadContext) (h : s.stComp.isActive = false) :
    s.compFlushIfActive = s := by
  unfold ThreadContext.compFlushIfActive
  rw [if_neg (by simp [h])]

lemma checkLimit_of_inactive (s : ThreadContext) (h : s.stComp.isActive = false) :
    s.checkCompFlushLimit = s := by
  unfold ThreadContext.checkCompFlushLimit
  split
  · exact compFlushIfActive_of_inactive s h
  · rfl

lemma readLoop_spec (sh0 : STShadowMemory) (tid : Nat) (start : Nat) (n : Nat)
    (cp0 : STCompEvent) (cm0 : STCommEvent) (hw : start + n < W) :
    ∀ i, i ≤ n →
      (readLoop tid start sh0 cp0 cm0 i).1.limit = sh0.limit ∧
      (∀ j, i ≤ j → j < n →
        (readLoop tid start sh0 cp0 cm0 i).1.cellAt (start + j) = sh0.cellAt (start + j)) ∧
      (readLoop tid start sh0 cp0 cm0 i).2.1 =
        { cp0 with uniqueReadAddrs := localReadFold sh0 tid start cp0.uniqueReadAddrs i } ∧
      (readLoop tid start sh0 cp0 cm0 i).2.2.1.isActive =
        (cm0.isActive || (List.range i).any fun j => commByte sh0 tid (start + j)) ∧
      (readLoop tid start sh0 cp0 cm0 i).2.2.2 =
        ((List.range i).any fun j => commByte sh0 tid (start + j)) := by
  intro i
  induction i with
  | zero =>
    intro _
    refine ⟨rfl, fun j _ _ => rfl, ?_, by simp [readLoop], by simp [readLoop]⟩
    show cp0 = _
    simp [localReadFold]
  | succ i ih =>
    intro hin
    obtain ⟨ih1, ih2, ih3, ih4, ih5⟩ := ih (Nat.le_of_succ_le hin)
    have hilt : i < n := Nat.lt_of_lt_of_le (Nat.lt_succ_self i) hin
    have hsw : start + i < W := by omega
    have hmod : (start + i) % W = start + i := Nat.mod_eq_of_lt hsw
    have hcb : commByte (readLoop tid start sh0 cp0 cm0 i).1 tid (start + i) =
        commByte sh0 tid (start + i) :=
      commByte_congr _ _ _ _ ih1 (ih2 i (le_refl i) hilt)
    rw [readLoop_succ, readByte_spec', hmod, hcb]
    by_cases hc : commByte sh0 tid (start + i) = true
    · rw [if_pos hc]
      dsimp only
      refine ⟨ih1, ?_, ?_, ?_, ?_⟩
      · intro j hj1 hj2
        have hne : start + j ≠ (start + i) % W := by
          rw [hmod]
          omega
        rw [cellAt_updateReader_ne _ _ _ _ hne]
        exact ih2 j (by omega) hj2
      · rw [ih3, localReadFold_succ, if_pos hc]
      · rw [List.range_succ, List.any_append]
        simp [STCommEvent.addEdge, hc]
      · rw [List.range_succ, List.any_append]
        simp [hc]
    · rw [if_neg hc]
      have hc' : commByte sh0 tid (start + i) = false := by
        simpa using hc
      dsimp only
      refine ⟨?_, ?_, ?_, ?_, ?_⟩
      · split
        · rw [updateReader_limit]
          exact ih1
        · exact ih1
      · intro j hj1 hj2
        have hne : start + j ≠ (start + i) % W := by
          rw [hmod]
          omega
        split
        · rw [cellAt_updateReader_ne _ _ _ _ hne]
          exact ih2 j (by omega) hj2
        · exact ih2 j (by omega) hj2
      · rw [ih3]
        unfold STCompEvent.updateReads
        dsimp only
        rw [memRange_one _ hsw, localReadFold_succ, if_neg (by simp [hc'])]
      · rw [List.range_succ, List.any_append]
        simp [ih4, hc']
      · rw [List.range_succ, List.any_append]
        simp [ih5, hc']

/-- C8 (amended): for a multi-byte load in which at least one byte
classifies as a communication edge and at least one as local, processed
with an inactive compute aggregator: the communication aggregator ends
active (the whole event will be emitted as a communication event), the
compute read counter is not incremented, and nothing is emitted during
the load — but the read ranges of the locally-classified bytes are NOT
dropped: each one is inserted into the compute aggregator's unique
read-range set, where it stays for the next compute flush. -/
theorem claim8_mixed_load (sh : STShadowMemory) (s : ThreadContext) (start n : Nat)
    (hw : start + n < W) (hf : s.fatal = false) (hA : s.stComp.isActive = false)
    (hmix1 : ((List.range n).any fun i => commByte sh s.tid (start + i)) = true)
    (_hmix2 : ((List.range n).any fun i => !commByte sh s.tid (start + i)) = true) :
    (ThreadContext.onRead sh s start n).2.stComm.isActive = true ∧
    (ThreadContext.onRead sh s start n).2.stComp.reads = s.stComp.reads ∧
    (ThreadContext.onRead sh s start n).2.trace = s.trace ∧
    (ThreadContext.onRead sh s start n).2.stComp.uniqueReadAddrs =
      localReadFold sh s.tid start s.stComp.uniqueReadAddrs n := by
  obtain ⟨h1, h2, h3, h4, h5⟩ := readLoop_spec sh s.tid start n s.stComp s.stComm hw n (le_refl n)
  unfold ThreadContext.onRead
  rw [if_neg (by simp [hf])]
  dsimp only
  have hfold : (List.range n).foldl
      (fun x i => ThreadContext.readByte s.tid x ((start + i) % W))
      (sh, s.stComp, s.stComm, false) = readLoop s.tid start sh s.stComp s.stComm n := rfl
  rw [hfold, h5, hmix1]
  rw [if_neg (by simp)]
  have hmid : ({ s with
      stComp := (readLoop s.tid start sh s.stComp s.stComm n).2.1,
      stComm := (readLoop s.tid start sh s.stComp s.stComm n).2.2.1 } :
      ThreadContext).stComp.isActive = false := by
    dsimp only
    rw [h3]
    exact hA
  rw [compFlushIfActive_of_inactive _ hmid, checkLimit_of_inactive _ hmid]
  refine ⟨?_, ?_, rfl, ?_⟩
  · dsimp only
    rw [h4, hmix1]
    simp
  · dsimp only
    rw [h3]
  · dsimp only
    rw [h3]

/-- Witness for `claim8_mixed_load`: thread 2 loads two bytes, the first
written by thread 1 (communication), the second unwritten (local). -/
theorem claim8_mixed_load_witness :
    (100 + 2 < W ∧ (ThreadContext.start 2 100).fatal = false ∧
      (ThreadContext.start 2 100).stComp.isActive = false ∧
      ((List.range 2).any fun i => commByte shT1At100 2 (100 + i)) = true ∧
      ((List.range 2).any fun i => !commByte shT1At100 2 (100 + i)) = true) ∧
    (ThreadContext.onRead shT1At100 (ThreadContext.start 2 100) 100 2).2.stComp.uniqueReadAddrs =
      localReadFold shT1At100 2 100 [] 2 :=
  ⟨⟨by decide, by decide, by decide, by decide, by decide⟩,
    (claim8_mixed_load shT1At100 (ThreadContext.start 2 100) 100 2 (by decide) (by decide)
      (by decide) (by decide) (by decide)).2.2.2⟩

/-- C8 counterexample: in a two-byte load whose first byte is a
communication edge and whose second byte is local, the local byte's
range `(101, 101)` is NOT dropped from the compute aggregator: it shows
up inside the read-range set of the compute event flushed later. -/
theorem claim8_local_ranges_not_dropped_counterexample :
    ((runPrims shT1At100 (ThreadContext.start 2 100)
        [Prim.load 100 2, Prim.load 200 1]).2.shutdown.trace =
      [Record.comm 0 2 [(1, 7, [(100, 100)])],
        Record.comp 1 2 0 0 1 0 [] [(101, 101), (200, 200)]]) ∧
    compReadAddrsCover
      (runPrims shT1At100 (ThreadContext.start 2 100)
        [Prim.load 100 2, Prim.load 200 1]).2.shutdown.trace 101 = true := by
  decide

/-- C9: evaluation of the store path at a size-0 store, which the spec
says must be ignored.  The code instead increments the write counter of
the aggregator and of the statistics, activates the compute aggregator,
and records the wrapped-around range `(0x1000, 0xfff)`, whose inverted
ends violate `AddrSet::insert`'s own `assert(range.first <=
range.second)`.  Only the shadow memory is left unchanged. -/
theorem claim9_store_size_zero_effects :
    (ThreadContext.onWrite shEmpty (ThreadContext.start 1 100) 4096 0).1 = shEmpty ∧
    ((ThreadContext.onWrite shEmpty (ThreadContext.start 1 100) 4096 0).2.stComp.writes = 1 ∧
      (ThreadContext.onWrite shEmpty (ThreadContext.start 1 100) 4096 0).2.stComp.isActive = true ∧
      (ThreadContext.onWrite shEmpty (ThreadContext.start 1 100) 4096 0).2.stComp.uniqueWriteAddrs =
        [(4096, 4095)] ∧
      (ThreadContext.onWrite shEmpty (ThreadContext.start 1 100) 4096 0).2.stats.writes = 1 ∧
      insertAssertOk (memRange 4096 0) = false) :=
  ⟨rfl, by decide⟩

lemma eidsOk_append (l l' : List Record) (k : Nat) :
    eidsOk (l ++ l') k = (eidsOk l k && eidsOk l' (k + compCommCount l)) := by
  induction l generalizing k with
  | nil => simp [eidsOk, compCommCount]
  | cons r t ih =>
    cases r with
    | comp e a b c d f g hh =>
      have h1 : k + 1 + compCommCount t = k + (1 + compCommCount t) := by omega
      simp [eidsOk, compCommCount, isCompComm, ih, Bool.and_assoc, h1]
    | comm e a b =>
      have h1 : k + 1 + compCommCount t = k + (1 + compCommCount t) := by omega
      simp [eidsOk, compCommCount, isCompComm, ih, Bool.and_assoc, h1]
    | sync e a b c =>
      simp [eidsOk, compCommCount, isCompComm, ih, Bool.and_assoc]
    | marker n =>
      simp [eidsOk, compCommCount, isCompComm, ih]

lemma compCommCount_append (l l' : List Record) :
    compCommCount (l ++ l') = compCommCount l + compCommCount l' := by
  induction l with
  | nil => simp [compCommCount]
  | cons r t ih =>
    simp [compCommCount, ih, Nat.add_assoc]

lemma compCommEids_of_eidsOk (l : List Record) :
    ∀ k, eidsOk l k = true → compCommEids l = List.range' k (compCommCount l) := by
  induction l with
  | nil => intro k _; simp [compCommEids, compCommCount]
  | cons r t ih =>
    intro k hok
    cases r with
    | comp e a b c d f g hh =>
      simp only [eidsOk, Bool.and_eq_true, decide_eq_true_eq] at hok
      simp only [compCommEids, compCommCount, isCompComm, if_pos, hok.1]
      rw [ih (k + 1) hok.2]
      have : 1 + compCommCount t = compCommCount t + 1 := by omega
      rw [this, List.range'_succ]
    | comm e a b =>
      simp only [eidsOk, Bool.and_eq_true, decide_eq_true_eq] at hok
      simp only [compCommEids, compCommCount, isCompComm, if_pos, hok.1]
      rw [ih (k + 1) hok.2]
      have : 1 + compCommCount t = compCommCount t + 1 := by omega
      rw [this, List.range'_succ]
    | sync e a b c =>
      simp only [eidsOk, Bool.and_eq_true, decide_eq_true_eq] at hok
      simp only [compCommEids, compCommCount, isCompComm]
      rw [ih k hok.2]
      simp
    | marker n =>
      simp only [eidsOk] at hok
      simp only [compCommEids, compCommCount, isCompComm]
      rw [ih k hok]
      simp

lemma fatal_compFlush (s : ThreadContext) :
    (s.compFlushIfActive).fatal = false → s.fatal = false := by
  unfold ThreadContext.compFlushIfActive ThreadContext.bumpEID
  split
  · split
    · exact fun h => h
    · intro h; exact absurd h (by simp)
  · exact fun h => h

lemma fatal_commFlush (s : ThreadContext) :
    (s.commFlushIfActive).fatal = false → s.fatal = false := by
  unfold ThreadContext.commFlushIfActive ThreadContext.bumpEID
  split
  · split
    · exact fun h => h
    · intro h; exact absurd h (by simp)
  · exact fun h => h

lemma eidinv_compFlush (s : ThreadContext) (h : EidInv s) : EidInv s.compFlushIfActive := by
  intro hf'
  have hsf : s.fatal = false := fatal_compFlush s hf'
  obtain ⟨h1, h2⟩ := h hsf
  unfold ThreadContext.compFlushIfActive ThreadContext.bumpEID at hf' ⊢
  by_cases hA : s.stComp.isActive = true
  · rw [if_pos hA] at hf' ⊢
    dsimp only at hf' ⊢
    by_cases hov : s.events + 1 < W
    · rw [if_pos hov] at hf' ⊢
      dsimp only at hf' ⊢
      constructor
      · rw [eidsOk_append]
        simp [eidsOk, h1, h2]
      · rw [compCommCount_append, h2]
        simp [compCommCount, isCompComm]
    · rw [if_neg hov] at hf'
      dsimp only at hf'
      exact absurd hf' (by simp)
  · rw [if_neg hA] at hf' ⊢
    exact ⟨h1, h2⟩

lemma eidinv_commFlush (s : ThreadContext) (h : EidInv s) : EidInv s.commFlushIfActive := by
  intro hf'
  have hsf : s.fatal = false := fatal_commFlush s hf'
  obtain ⟨h1, h2⟩ := h hsf
  unfold ThreadContext.commFlushIfActive ThreadContext.bumpEID at hf' ⊢
  by_cases hA : s.stComm.isActive = true
  · rw [if_pos hA] at hf' ⊢
    dsimp only at hf' ⊢
    by_cases hov : s.events + 1 < W
    · rw [if_pos hov] at hf' ⊢
      dsimp only at hf' ⊢
      constructor
      · rw [eidsOk_append]
        simp [eidsOk, h1, h2]
      · rw [compCommCount_append, h2]
        simp [compCommCount, isCompComm]
    · rw [if_neg hov] at hf'
      dsimp only at hf'
      exact absurd hf' (by simp)
  · rw [if_neg hA] at hf' ⊢
    exact ⟨h1, h2⟩

lemma eidinv_checkLimit (s : ThreadContext) (h : EidInv s) :
    EidInv s.checkCompFlushLimit := by
  unfold ThreadContext.checkCompFlushLimit
  split
  · exact eidinv_compFlush s h
  · exact h

lemma eidinv_update (s s' : ThreadContext) (h : EidInv s) (ht : s'.trace = s.trace)
    (he : s'.events = s.events) (hf : s'.fatal = s.fatal) : EidInv s' := by
  intro hf'
  rw [ht, he]
  exact h (by rw [← hf]; exact hf')

lemma eidinv_onSync (s : ThreadContext) (ty : Nat) (addr : Nat) (h : EidInv s) :
    EidInv (s.onSync ty addr) := by
  unfold ThreadContext.onSync
  split
  · exact h
  · intro hf'
    dsimp only at hf'
    obtain ⟨hA, hB⟩ := eidinv_commFlush _ (eidinv_compFlush _ h) hf'
    constructor
    · dsimp only
      rw [eidsOk_append]
      simp [eidsOk, hA, hB]
    · dsimp only
      rw [compCommCount_append, hB]
      simp [compCommCount, isCompComm]

lemma eidinv_onIop (s : ThreadContext) (h : EidInv s) : EidInv s.onIop := by
  unfold ThreadContext.onIop
  split
  · exact h
  · dsimp only
    exact eidinv_update s.commFlushIfActive _ (eidinv_commFlush s h) rfl rfl rfl

lemma eidinv_onFlop (s : ThreadContext) (h : EidInv s) : EidInv s.onFlop := by
  unfold ThreadContext.onFlop
  split
  · exact h
  · dsimp only
    exact eidinv_update s.commFlushIfActive _ (eidinv_commFlush s h) rfl rfl rfl

lemma eidinv_onInstr (s : ThreadContext) (h : EidInv s) : EidInv s.onInstr := by
  unfold ThreadContext.onInstr
  split
  · exact h
  · dsimp only
    split
    · intro hf'
      dsimp only at hf'
      obtain ⟨h1, h2⟩ := h hf'
      constructor
      · dsimp only
        rw [eidsOk_append]
        simp [eidsOk, h1]
      · dsimp only
        rw [compCommCount_append, h2]
        simp [compCommCount, isCompComm]
    · exact eidinv_update s _ h rfl rfl rfl

lemma eidinv_onWrite (sh : STShadowMemory) (s : ThreadContext) (a n : Nat)
    (h : EidInv s) : EidInv (ThreadContext.onWrite sh s a n).2 := by
  unfold ThreadContext.onWrite
  split
  · exact h
  · dsimp only
    have h1 : EidInv ({ s with stComp := s.stComp.incWrites.updateWrites a n } : ThreadContext) :=
      eidinv_update s _ h rfl rfl rfl
    have h2 := eidinv_checkLimit _ h1
    exact eidinv_update _ _ h2 rfl rfl rfl

lemma eidinv_onRead (sh : STShadowMemory) (s : ThreadContext) (a n : Nat)
    (h : EidInv s) : EidInv (ThreadContext.onRead sh s a n).2 := by
  unfold ThreadContext.onRead
  split
  · exact h
  · dsimp only
    generalize (List.range n).foldl
      (fun x i => ThreadContext.readByte s.tid x ((a + i) % W))
      (sh, s.stComp, s.stComm, false) = t
    obtain ⟨sh', cp', cm', flag⟩ := t
    dsimp only
    have h1 : EidInv ({ s with stComp := cp', stComm := cm' } : ThreadContext) :=
      eidinv_update s _ h rfl rfl rfl
    have h2 : EidInv (if flag = false then
        { ({ s with stComp := cp', stComm := cm' } :
            ThreadContext).commFlushIfActive with
          stComp := (({ s with stComp := cp', stComm := cm' } :
            ThreadContext).commFlushIfActive).stComp.incReads }
      else ({ s with stComp := cp', stComm := cm' } : ThreadContext).compFlushIfActive) := by
      split
      · exact eidinv_update _ _ (eidinv_commFlush _ h1) rfl rfl rfl
      · exact eidinv_compFlush _ h1
    have h3 := eidinv_checkLimit _ h2
    exact eidinv_update _ _ h3 rfl rfl rfl

lemma eidinv_step (x : STShadowMemory × ThreadContext) (p : Prim) (h : EidInv x.2) :
    EidInv (stepPrim x p).2 := by
  cases p with
  | load a n => exact eidinv_onRead x.1 x.2 a n h
  | store a n => exact eidinv_onWrite x.1 x.2 a n h
  | iop => exact eidinv_onIop x.2 h
  | flop => exact eidinv_onFlop x.2 h
  | syncPrim t a => exact eidinv_onSync x.2 t a h
  | instr => exact eidinv_onInstr x.2 h

lemma eidinv_runPrims (sh : STShadowMemory) (s : ThreadContext) (ps : List Prim)
    (h : EidInv s) : EidInv (runPrims sh s ps).2 := by
  unfold runPrims
  induction ps generalizing sh s with
  | nil => exact h
  | cons p t ih => exact ih _ _ (eidinv_step (sh, s) p h)

lemma eidinv_shutdown (s : ThreadContext) (h : EidInv s) : EidInv s.shutdown := by
  unfold ThreadContext.shutdown
  split
  · exact h
  · exact eidinv_commFlush _ (eidinv_compFlush _ h)

/-- C4 (amended): the per-thread Nat counter starts at 0 (not 1), is
bumped exactly once by each flush of an active aggregator — with counter
overflow fatal — and is NOT bumped by emitted sync records, which carry
the then-current counter value.  Consequently, on any run that does not
hit the fatal overflow, the EIDs attached to the compute and
communication records form the contiguous sequence 0, 1, …, N−1, and
every sync record repeats the value of the flush counter at its
emission. -/
theorem claim4_eid_sequence (tid cap : Nat) (sh : STShadowMemory) (prims : List Prim)
    (hf : ((runPrims sh (ThreadContext.start tid cap) prims).2.shutdown).fatal = false) :
    eidsOk ((runPrims sh (ThreadContext.start tid cap) prims).2.shutdown).trace 0 = true ∧
    compCommEids ((runPrims sh (ThreadContext.start tid cap) prims).2.shutdown).trace =
      List.range' 0
        (compCommCount ((runPrims sh (ThreadContext.start tid cap) prims).2.shutdown).trace) := by
  have h0 : EidInv (ThreadContext.start tid cap) := by
    intro _
    exact ⟨rfl, rfl⟩
  have h1 := eidinv_shutdown _ (eidinv_runPrims sh _ prims h0) hf
  exact ⟨h1.1, compCommEids_of_eidsOk _ 0 h1.1⟩

/-- Witness for `claim4_eid_sequence` on a concrete overflow-free run. -/
theorem claim4_eid_sequence_witness :
    (((runPrims shEmpty (ThreadContext.start 1 100)
        [Prim.iop, Prim.syncPrim 1 5, Prim.store 10 1]).2.shutdown).fatal = false) ∧
    eidsOk ((runPrims shEmpty (ThreadContext.start 1 100)
        [Prim.iop, Prim.syncPrim 1 5, Prim.store 10 1]).2.shutdown).trace 0 = true :=
  ⟨by decide,
    (claim4_eid_sequence 1 100 shEmpty [Prim.iop, Prim.syncPrim 1 5, Prim.store 10 1]
      (by decide)).1⟩

/-- C10: a `Sync(Swap, newTid)` whose target equals the dispatcher's
current thread id leaves the whole dispatcher state unchanged: no
context is created, the thread-order list, both aggregators, the Nat
counter, and the traces are untouched, and nothing is emitted. -/
theorem claim10_swap_same_tid_noop (h : EventHandlers) (newTID : Nat)
    (heq : newTID = h.currentTID) : h.onSwapTCxt newTID = h := by
  unfold EventHandlers.onSwapTCxt
  rw [if_neg (by simp [heq])]

/-- Witness for `claim10_swap_same_tid_noop` on a concrete dispatcher
state. -/
theorem claim10_swap_same_tid_noop_witness :
    ((1 : Nat) = dispatchFix.currentTID) ∧ dispatchFix.onSwapTCxt 1 = dispatchFix :=
  ⟨rfl, claim10_swap_same_tid_noop dispatchFix 1 rfl⟩

end STGen

